import Mathlib

/-!
Verification development for the pluginFramework repository.

Shallow embedding of the event-dispatch core (`EventBus` in
src/unnamed/part_001), the keyboard observer (`KeyboardListener`,
src/unnamed/part_001), the structural-change observer
(`DomObserver`, src/src/util/EventDomObserver.ts) and the network
observer (`NetworkListener`, src/src/util/EventNetworkListener.ts).

Modelling conventions:
* machine integers are `Nat`/`Int`; timestamps are `Nat` clock readings;
* listener callbacks are modelled as pure functions from the event record
  to the pair (events the callback emits reentrantly while running,
  its outcome).  During a dispatch pass `isProcessing` is `true`, so every
  reentrant `emit` made by a callback appends to the queue; the dispatch
  loop therefore appends the callback's emissions directly (the emit-time
  behaviour on a busy bus is additionally modelled, and proved, from
  `emit` itself).  Reentrant registry mutation (`on`/`off` from inside a
  callback) is outside the modelled callback language;
* a callback outcome is `ret r` (it returned, `r : Option Bool` where
  `none` models any non-boolean result) or `throws` (it threw/rejected);
  the source short-circuits exactly on the strict equality
  `result === true`, i.e. on `ret (some true)`;
* `emit` drains the pending queue with explicit fuel; `none` models a
  non-terminating drain (callbacks forever re-emitting);
* every dispatch function also returns a ghost trace (`TraceEv`) used only
  for the specification of ordering properties: `passStart e` when a pass
  for `e` begins, `invoke id e` when a listener is invoked, `passEnd e b`
  when the pass finishes with short-circuit result `b`.
-/

namespace PF

/-- EventType enumeration from src/unnamed/part_001 (EventBus module). -/
inductive EventType where
  | KEYDOWN | KEYUP | KEYBINDING
  | MOUSEMOVE | MOUSEDOWN | MOUSEUP | CLICK | DBLCLICK
  | DOM_MUTATION
  | NETWORK_REQUEST | NETWORK_RESPONSE
  | CUSTOM
deriving DecidableEq

/-- EventData record; the dispatcher only ever reads `type`, the remaining
fields (timestamp, source, data, originalEvent) are collapsed into an
opaque identity tag. -/
structure EventData where
  type : EventType
  tag : Nat
deriving DecidableEq

/-- Outcome of one callback run: `ret (some true)` models the strict
`result === true`, `ret (some false)` an explicit `false`, `ret none` any
other value (undefined and the like), `throws` a throw/rejection. -/
inductive CbOutcome where
  | ret (r : Option Bool)
  | throws
deriving DecidableEq

/-- A listener callback: the events it emits reentrantly while running,
and its outcome, as a function of the received event record. -/
def Callback : Type := EventData → List EventData × CbOutcome

/-- ListenerConfig from src/unnamed/part_001: id, callback, priority
(higher fires earlier), once flag, source tag. -/
structure ListenerConfig where
  id : String
  listener : Callback
  priority : Int
  once : Bool
  source : String

/-- Values held in the execution-context scratch map. -/
inductive CtxVal where
  | event (e : EventData)
  | time (t : Nat)
  | listenerEntry (c : ListenerConfig)

/-- JS `Map.set`: update in place (keeping the entry's position) when the
key exists, append otherwise.  Keys are unique in a `Map`, so replacing
the first occurrence models it. -/
def jsMapSet : List (String × CtxVal) → String → CtxVal → List (String × CtxVal)
  | [], k, v => [(k, v)]
  | p :: ps, k, v => if p.1 = k then (k, v) :: ps else p :: jsMapSet ps k v

/-- JS `Map.get` on the scratch map. -/
def ctxLookup (m : List (String × CtxVal)) (k : String) : Option CtxVal :=
  (m.find? (fun p => p.1 = k)).map (fun p => p.2)

/-- Dispatcher state: listener registry (a kind with no bucket is the
empty list), the processing flag, the pending FIFO queue, and the
execution-context scratch map. -/
structure BusState where
  listeners : EventType → List ListenerConfig
  isProcessing : Bool
  eventQueue : List EventData
  executionContext : List (String × CtxVal)

/-- Stable insertion step of the descending-priority sort: the inserted
element goes in front of the first element of not-larger priority.  Used
only through `sortByPriorityDesc`. -/
def insertDesc (c : ListenerConfig) : List ListenerConfig → List ListenerConfig
  | [] => [c]
  | x :: xs => if x.priority ≤ c.priority then c :: x :: xs else x :: insertDesc c xs

/-- The stable sort `listeners.sort((a, b) => b.priority - a.priority)`:
JS Array.prototype.sort is stable, realised here as a stable insertion
sort (non-increasing priority, ties keep their original relative order). -/
def sortByPriorityDesc : List ListenerConfig → List ListenerConfig
  | [] => []
  | x :: xs => insertDesc x (sortByPriorityDesc xs)

/-- EventBus.on (named onEvent here because `on` is reserved in Lean):
push the registration onto the kind's bucket, then re-sort the bucket by
descending priority (stable). -/
def onEvent (t : EventType) (cfg : ListenerConfig) (st : BusState) : BusState :=
  { st with listeners := fun u =>
      if u = t then sortByPriorityDesc (st.listeners t ++ [cfg]) else st.listeners u }

/-- EventBus.off: remove the first registration with the given id from the
kind's bucket; returns whether anything was removed.  (Deleting an emptied
bucket is invisible in the total-function registry model.) -/
def off (t : EventType) (lid : String) (st : BusState) : Bool × BusState :=
  match (st.listeners t).findIdx? (fun c => c.id = lid) with
  | none => (false, st)
  | some i =>
      (true, { st with listeners := fun u =>
        if u = t then (st.listeners t).eraseIdx i else st.listeners u })

/-- EventBus.removeListenersBySource: filter out every registration whose
source matches, for every kind. -/
def removeListenersBySource (src : String) (st : BusState) : BusState :=
  { st with listeners := fun u => (st.listeners u).filter (fun c => c.source ≠ src) }

/-- Ghost trace entries (specification instrumentation only). -/
inductive TraceEv where
  | passStart (e : EventData)
  | invoke (lid : String) (e : EventData)
  | passEnd (e : EventData) (sc : Bool)
deriving DecidableEq

/-- Ids of the listeners invoked, in order, in a trace. -/
def invokedIds (tr : List TraceEv) : List String :=
  tr.filterMap (fun ev => match ev with
    | TraceEv.invoke lid _ => some lid
    | _ => none)

/-- Events whose pass started, in order, in a trace. -/
def passStarts (tr : List TraceEv) : List EventData :=
  tr.filterMap (fun ev => match ev with
    | TraceEv.passStart e => some e
    | _ => none)

/-- Result of the listener loop inside EventBus.processEvent. -/
structure LoopOut where
  shortCircuited : Bool
  st : BusState
  toRemove : List String
  trace : List TraceEv

/-- The `for (const config of eventListeners)` loop of
EventBus.processEvent: set the currentListener context entry, invoke the
callback (its reentrant emissions are appended to the pending queue since
`isProcessing` is true inside a pass), mark once listeners for removal,
and stop at the first strict-`true` result.  Errors (`throws`) are caught,
logged, and treated as a non-`true` result. -/
def processListeners (e : EventData) :
    List ListenerConfig → BusState → List String → LoopOut
  | [], st, acc => ⟨false, st, acc, []⟩
  | c :: rest, st, acc =>
      let ctx1 := jsMapSet st.executionContext "currentListener" (CtxVal.listenerEntry c)
      let st1 := { st with executionContext := ctx1 }
      let r := c.listener e
      let st2 := { st1 with eventQueue := st1.eventQueue ++ r.1 }
      let acc1 := if c.once then acc ++ [c.id] else acc
      match r.2 with
      | CbOutcome.ret (some true) => ⟨true, st2, acc1, [TraceEv.invoke c.id e]⟩
      | _ =>
          let out := processListeners e rest st2 acc1
          ⟨out.shortCircuited, out.st, out.toRemove, TraceEv.invoke c.id e :: out.trace⟩

/-- The two `setExecutionContext` calls made at the start of a pass. -/
def passContext (now : Nat) (e : EventData) (ctx : List (String × CtxVal)) :
    List (String × CtxVal) :=
  jsMapSet (jsMapSet ctx "currentEvent" (CtxVal.event e)) "startTime" (CtxVal.time now)

/-- The bus state as seen by the listener loop, after the start-of-pass
context entries were set. -/
def withPassCtx (now : Nat) (e : EventData) (st : BusState) : BusState :=
  { st with executionContext := passContext now e st.executionContext }

/-- The listener loop of a pass, started on the kind's bucket with an
empty removal schedule. -/
def passLoop (now : Nat) (e : EventData) (st : BusState) : LoopOut :=
  processListeners e (st.listeners e.type) (withPassCtx now e st) []

/-- EventBus.processEvent: no-op on an empty bucket; otherwise set the
currentEvent/startTime context entries, run the listener loop, and — only
when the pass was NOT short-circuited — apply the scheduled once-removals
and clear the execution context (the source returns `true` from inside the
loop on short-circuit, skipping both). -/
def processEvent (now : Nat) (e : EventData) (st : BusState) :
    Bool × BusState × List TraceEv :=
  if (st.listeners e.type).isEmpty then
    (false, st, [TraceEv.passStart e, TraceEv.passEnd e false])
  else
    let out := passLoop now e st
    if out.shortCircuited then
      (true, out.st, TraceEv.passStart e :: out.trace ++ [TraceEv.passEnd e true])
    else
      let st2 := out.toRemove.foldl (fun s i => (off e.type i s).2) out.st
      let st3 := { st2 with executionContext := [] }
      (false, st3, TraceEv.passStart e :: out.trace ++ [TraceEv.passEnd e false])

/-- The `while (this.eventQueue.length > 0)` drain loop of EventBus.emit,
with explicit fuel; `none` models a drain that does not terminate within
the fuel. -/
def drainQueue (now : Nat) : Nat → BusState → Option (BusState × List TraceEv)
  | 0, st =>
      match st.eventQueue with
      | [] => some (st, [])
      | _ :: _ => none
  | fuel + 1, st =>
      match st.eventQueue with
      | [] => some (st, [])
      | e :: rest =>
          let r := processEvent now e { st with eventQueue := rest }
          match drainQueue now fuel r.2.1 with
          | none => none
          | some (stFin, tr) => some (stFin, r.2.2 ++ tr)

/-- EventBus.emit: on a busy bus append to the queue and return `false`
immediately; otherwise raise the processing flag, run the pass for the
record, drain the queue, lower the flag, and return the directly-passed
record's own short-circuit result. -/
def emit (fuel now : Nat) (e : EventData) (st : BusState) :
    Option (Bool × BusState × List TraceEv) :=
  if st.isProcessing then
    some (false, { st with eventQueue := st.eventQueue ++ [e] }, [])
  else
    let st1 := { st with isProcessing := true }
    let r := processEvent now e st1
    match drainQueue now fuel r.2.1 with
    | none => none
    | some (st2, trD) =>
        some (r.1, { st2 with isProcessing := false }, r.2.2 ++ trD)

/-- A freshly constructed EventBus. -/
def emptyBus : BusState :=
  { listeners := fun _ => [], isProcessing := false, eventQueue := [],
    executionContext := [] }

/-- Whether a callback short-circuits on an event (strict `=== true`). -/
def cbShort (c : ListenerConfig) (e : EventData) : Prop :=
  (c.listener e).2 = CbOutcome.ret (some true)

instance (c : ListenerConfig) (e : EventData) : Decidable (cbShort c e) := by
  unfold cbShort; infer_instance

/-! Ordering theory of the registry: the bucket of every kind is sorted by
non-increasing priority, ties keeping registration order. -/

/-- Non-increasing priority along the list. -/
def PrioSorted (l : List ListenerConfig) : Prop :=
  l.Pairwise (fun a b => b.priority ≤ a.priority)

instance (l : List ListenerConfig) : Decidable (PrioSorted l) := by
  unfold PrioSorted; infer_instance

theorem insertDesc_perm (c : ListenerConfig) (l : List ListenerConfig) :
    List.Perm (insertDesc c l) (c :: l) := by
  induction l with
  | nil => simp [insertDesc]
  | cons x xs ih =>
      by_cases h : x.priority ≤ c.priority
      · simp [insertDesc, h]
      · simp only [insertDesc, if_neg h]
        exact (ih.cons x).trans (List.Perm.swap c x xs)

theorem insertDesc_sorted {l : List ListenerConfig} (h : PrioSorted l)
    (c : ListenerConfig) : PrioSorted (insertDesc c l) := by
  induction l with
  | nil => simp [insertDesc, PrioSorted]
  | cons x xs ih =>
      rcases List.pairwise_cons.mp h with ⟨hx, hxs⟩
      by_cases hc : x.priority ≤ c.priority
      · simp only [insertDesc, if_pos hc]
        refine List.pairwise_cons.mpr ⟨?_, h⟩
        intro b hb
        rcases List.mem_cons.mp hb with rfl | hb
        · exact hc
        · exact le_trans (hx b hb) hc
      · simp only [insertDesc, if_neg hc]
        refine List.pairwise_cons.mpr ⟨?_, ih hxs⟩
        intro b hb
        rcases List.mem_cons.mp ((insertDesc_perm c xs).mem_iff.mp hb) with rfl | hb2
        · exact le_of_lt (lt_of_not_le hc)
        · exact hx b hb2

theorem sortByPriorityDesc_perm (l : List ListenerConfig) :
    List.Perm (sortByPriorityDesc l) l := by
  induction l with
  | nil => simp [sortByPriorityDesc]
  | cons x xs ih =>
      exact (insertDesc_perm x (sortByPriorityDesc xs)).trans (ih.cons x)

theorem sortByPriorityDesc_sorted (l : List ListenerConfig) :
    PrioSorted (sortByPriorityDesc l) := by
  induction l with
  | nil => simp [sortByPriorityDesc, PrioSorted]
  | cons x xs ih => exact insertDesc_sorted ih x

theorem insertDesc_eq_cons {l : List ListenerConfig} {c : ListenerConfig}
    (h : ∀ y ∈ l.head?, y.priority ≤ c.priority) : insertDesc c l = c :: l := by
  cases l with
  | nil => rfl
  | cons x xs =>
      simp only [insertDesc, if_pos (h x rfl)]

theorem sortByPriorityDesc_eq_self {l : List ListenerConfig}
    (h : PrioSorted l) : sortByPriorityDesc l = l := by
  induction l with
  | nil => rfl
  | cons x xs ih =>
      rcases List.pairwise_cons.mp h with ⟨hx, hxs⟩
      simp only [sortByPriorityDesc, ih hxs]
      refine insertDesc_eq_cons ?_
      intro y hy
      cases xs with
      | nil => simp at hy
      | cons z zs =>
          simp only [List.head?_cons, Option.mem_def, Option.some.injEq] at hy
          exact hy ▸ hx z (List.mem_cons_self z zs)

/-- The Bool predicate splitting a sorted bucket around a new entry of
priority `c.priority`. -/
def aheadOf (c a : ListenerConfig) : Bool := decide (c.priority ≤ a.priority)

/-- Stable insertion characterisation: pushing the new registration and
re-sorting an already sorted bucket places it exactly after all existing
registrations of priority at least its own. -/
theorem sortByPriorityDesc_append_single {l : List ListenerConfig}
    (h : PrioSorted l) (c : ListenerConfig) :
    sortByPriorityDesc (l ++ [c]) =
      l.takeWhile (aheadOf c) ++ c :: l.dropWhile (aheadOf c) := by
  induction l with
  | nil => rfl
  | cons x xs ih =>
      rcases List.pairwise_cons.mp h with ⟨hx, hxs⟩
      have hstep : sortByPriorityDesc ((x :: xs) ++ [c])
          = insertDesc x (sortByPriorityDesc (xs ++ [c])) := rfl
      rw [hstep, ih hxs]
      by_cases hc : c.priority ≤ x.priority
      · have hPx : aheadOf c x = true := by simp [aheadOf, hc]
        rw [List.takeWhile_cons_of_pos hPx, List.dropWhile_cons_of_pos hPx]
        cases hT : xs.takeWhile (aheadOf c) with
        | nil =>
            simp only [hT, List.nil_append, List.cons_append]
            exact insertDesc_eq_cons
              (by intro y hy; simp at hy; exact hy ▸ hc)
        | cons t ts =>
            simp only [hT, List.cons_append]
            refine insertDesc_eq_cons ?_
            intro y hy
            simp only [List.head?_cons, Option.mem_def, Option.some.injEq] at hy
            have ht : t ∈ xs := by
              have hsplit := List.takeWhile_append_dropWhile (aheadOf c) xs
              rw [← hsplit]
              exact List.mem_append.mpr (Or.inl (hT ▸ List.mem_cons_self t ts))
            exact hy ▸ hx t ht
      · have hxc : x.priority < c.priority := lt_of_not_le hc
        have hPx : aheadOf c x = false := by simp [aheadOf, hc]
        rw [List.takeWhile_cons_of_neg (by simp [hPx]),
          List.dropWhile_cons_of_neg (by simp [hPx])]
        have hT : xs.takeWhile (aheadOf c) = [] := by
          cases xs with
          | nil => rfl
          | cons z zs =>
              have hz : z.priority ≤ x.priority := hx z (List.mem_cons_self z zs)
              have : aheadOf c z = false := by
                simp [aheadOf, not_le_of_lt (lt_of_le_of_lt hz hxc)]
              exact List.takeWhile_cons_of_neg (by simp [this])
        have hD : xs.dropWhile (aheadOf c) = xs := by
          have hsplit := List.takeWhile_append_dropWhile (aheadOf c) xs
          rw [hT] at hsplit
          simpa using hsplit
        rw [hT, hD, List.nil_append]
        have hrec : insertDesc x (c :: xs) = c :: insertDesc x xs := by
          simp [insertDesc, hc]
        rw [hrec]
        congr 1
        refine insertDesc_eq_cons ?_
        intro y hy
        cases xs with
        | nil => simp at hy
        | cons z zs =>
            simp only [List.head?_cons, Option.mem_def, Option.some.injEq] at hy
            exact hy ▸ hx z (List.mem_cons_self z zs)

/-- Registry invariant: every kind's bucket is sorted by non-increasing
priority. -/
def RegistryOrdered (st : BusState) : Prop :=
  ∀ t : EventType, PrioSorted (st.listeners t)

theorem onEvent_listeners_self (t : EventType) (cfg : ListenerConfig)
    (st : BusState) :
    (onEvent t cfg st).listeners t = sortByPriorityDesc (st.listeners t ++ [cfg]) := by
  simp [onEvent]

theorem onEvent_preserves_ordered {st : BusState} (h : RegistryOrdered st)
    (t : EventType) (cfg : ListenerConfig) : RegistryOrdered (onEvent t cfg st) := by
  intro u
  by_cases hu : u = t
  · subst hu
    rw [onEvent_listeners_self]
    exact sortByPriorityDesc_sorted _
  · show PrioSorted ((onEvent t cfg st).listeners u)
    simp only [onEvent, if_neg hu]
    exact h u

theorem off_preserves_ordered {st : BusState} (h : RegistryOrdered st)
    (t : EventType) (lid : String) : RegistryOrdered (off t lid st).2 := by
  intro u
  unfold off
  cases hfi : (st.listeners t).findIdx? (fun c => c.id = lid) with
  | none => exact h u
  | some i =>
      by_cases hu : u = t
      · simp only [if_pos hu]
        exact List.Pairwise.sublist (List.eraseIdx_sublist _ _) (hu ▸ h t)
      · simp only [if_neg hu]
        exact h u

theorem removeListenersBySource_preserves_ordered {st : BusState}
    (h : RegistryOrdered st) (src : String) :
    RegistryOrdered (removeListenersBySource src st) := by
  intro u
  exact List.Pairwise.sublist (List.filter_sublist _) (h u)

theorem off_eventQueue (t : EventType) (lid : String) (st : BusState) :
    (off t lid st).2.eventQueue = st.eventQueue := by
  unfold off
  cases (st.listeners t).findIdx? (fun c => c.id = lid) <;> rfl

theorem off_isProcessing (t : EventType) (lid : String) (st : BusState) :
    (off t lid st).2.isProcessing = st.isProcessing := by
  unfold off
  cases (st.listeners t).findIdx? (fun c => c.id = lid) <;> rfl

theorem off_executionContext (t : EventType) (lid : String) (st : BusState) :
    (off t lid st).2.executionContext = st.executionContext := by
  unfold off
  cases (st.listeners t).findIdx? (fun c => c.id = lid) <;> rfl

theorem foldlOff_eventQueue (t : EventType) (ids : List String) (st : BusState) :
    (ids.foldl (fun s i => (off t i s).2) st).eventQueue = st.eventQueue := by
  induction ids generalizing st with
  | nil => rfl
  | cons i ids ih => rw [List.foldl_cons, ih, off_eventQueue]

theorem foldlOff_isProcessing (t : EventType) (ids : List String) (st : BusState) :
    (ids.foldl (fun s i => (off t i s).2) st).isProcessing = st.isProcessing := by
  induction ids generalizing st with
  | nil => rfl
  | cons i ids ih => rw [List.foldl_cons, ih, off_isProcessing]

theorem foldlOff_preserves_ordered {st : BusState} (h : RegistryOrdered st)
    (t : EventType) (ids : List String) :
    RegistryOrdered (ids.foldl (fun s i => (off t i s).2) st) := by
  induction ids generalizing st with
  | nil => exact h
  | cons i ids ih => exact ih (off_preserves_ordered h t i)

theorem processListeners_listeners (e : EventData) (ls : List ListenerConfig)
    (st : BusState) (acc : List String) :
    (processListeners e ls st acc).st.listeners = st.listeners := by
  induction ls generalizing st acc with
  | nil => rfl
  | cons c rest ih =>
      cases h2 : (c.listener e).2 with
      | ret r =>
          cases r with
          | none => simp only [processListeners, h2]; exact ih _ _
          | some b =>
              cases b with
              | true => simp [processListeners, h2]
              | false => simp only [processListeners, h2]; exact ih _ _
      | throws => simp only [processListeners, h2]; exact ih _ _

theorem processListeners_isProcessing (e : EventData) (ls : List ListenerConfig)
    (st : BusState) (acc : List String) :
    (processListeners e ls st acc).st.isProcessing = st.isProcessing := by
  induction ls generalizing st acc with
  | nil => rfl
  | cons c rest ih =>
      cases h2 : (c.listener e).2 with
      | ret r =>
          cases r with
          | none => simp only [processListeners, h2]; exact ih _ _
          | some b =>
              cases b with
              | true => simp [processListeners, h2]
              | false => simp only [processListeners, h2]; exact ih _ _
      | throws => simp only [processListeners, h2]; exact ih _ _

theorem processListeners_eventQueue (e : EventData) (ls : List ListenerConfig)
    (st : BusState) (acc : List String) :
    ∃ ex, (processListeners e ls st acc).st.eventQueue = st.eventQueue ++ ex := by
  induction ls generalizing st acc with
  | nil => exact ⟨[], by simp [processListeners]⟩
  | cons c rest ih =>
      cases h2 : (c.listener e).2 with
      | ret r =>
          cases r with
          | none =>
              simp only [processListeners, h2]
              rcases ih _ _ with ⟨ex2, hex⟩
              exact ⟨(c.listener e).1 ++ ex2, by rw [hex]; simp [List.append_assoc]⟩
          | some b =>
              cases b with
              | true =>
                  exact ⟨(c.listener e).1, by simp [processListeners, h2]⟩
              | false =>
                  simp only [processListeners, h2]
                  rcases ih _ _ with ⟨ex2, hex⟩
                  exact ⟨(c.listener e).1 ++ ex2, by rw [hex]; simp [List.append_assoc]⟩
      | throws =>
          simp only [processListeners, h2]
          rcases ih _ _ with ⟨ex2, hex⟩
          exact ⟨(c.listener e).1 ++ ex2, by rw [hex]; simp [List.append_assoc]⟩

/-- Equation lemma: pass on a kind with no listeners. -/
theorem processEvent_of_empty {now : Nat} {e : EventData} {st : BusState}
    (h : (st.listeners e.type).isEmpty = true) :
    processEvent now e st =
      (false, st, [TraceEv.passStart e, TraceEv.passEnd e false]) := by
  unfold processEvent
  rw [if_pos h]

/-- Equation lemma: short-circuited pass. -/
theorem processEvent_of_short {now : Nat} {e : EventData} {st : BusState}
    (h : (st.listeners e.type).isEmpty = false)
    (hsc : (passLoop now e st).shortCircuited = true) :
    processEvent now e st =
      (true, (passLoop now e st).st,
        TraceEv.passStart e :: (passLoop now e st).trace ++ [TraceEv.passEnd e true]) := by
  unfold processEvent
  rw [if_neg (by simp [h]), if_pos hsc]

/-- Equation lemma: completed (not short-circuited) pass. -/
theorem processEvent_of_noShort {now : Nat} {e : EventData} {st : BusState}
    (h : (st.listeners e.type).isEmpty = false)
    (hsc : (passLoop now e st).shortCircuited = false) :
    processEvent now e st =
      (false,
        { ((passLoop now e st).toRemove.foldl (fun s i => (off e.type i s).2)
            (passLoop now e st).st) with executionContext := [] },
        TraceEv.passStart e :: (passLoop now e st).trace ++ [TraceEv.passEnd e false]) := by
  unfold processEvent
  rw [if_neg (by simp [h]), if_neg (by simp [hsc])]

theorem passLoop_listeners (now : Nat) (e : EventData) (st : BusState) :
    (passLoop now e st).st.listeners = st.listeners := by
  unfold passLoop
  rw [processListeners_listeners]
  rfl

theorem passLoop_isProcessing (now : Nat) (e : EventData) (st : BusState) :
    (passLoop now e st).st.isProcessing = st.isProcessing := by
  unfold passLoop
  rw [processListeners_isProcessing]
  rfl

theorem passLoop_eventQueue (now : Nat) (e : EventData) (st : BusState) :
    ∃ ex, (passLoop now e st).st.eventQueue = st.eventQueue ++ ex := by
  unfold passLoop
  exact processListeners_eventQueue e _ _ []

theorem processEvent_listeners_ordered {st : BusState} (h : RegistryOrdered st)
    (now : Nat) (e : EventData) :
    RegistryOrdered (processEvent now e st).2.1 := by
  have hloop : RegistryOrdered (passLoop now e st).st := by
    intro u
    rw [passLoop_listeners]
    exact h u
  cases hemp : (st.listeners e.type).isEmpty with
  | true => rw [processEvent_of_empty hemp]; exact h
  | false =>
      cases hsc : (passLoop now e st).shortCircuited with
      | true => rw [processEvent_of_short hemp hsc]; exact hloop
      | false =>
          rw [processEvent_of_noShort hemp hsc]
          intro u
          exact foldlOff_preserves_ordered hloop e.type (passLoop now e st).toRemove u

theorem processEvent_isProcessing (now : Nat) (e : EventData) (st : BusState) :
    (processEvent now e st).2.1.isProcessing = st.isProcessing := by
  cases hemp : (st.listeners e.type).isEmpty with
  | true => rw [processEvent_of_empty hemp]
  | false =>
      cases hsc : (passLoop now e st).shortCircuited with
      | true => rw [processEvent_of_short hemp hsc]; exact passLoop_isProcessing now e st
      | false =>
          rw [processEvent_of_noShort hemp hsc]
          exact (foldlOff_isProcessing e.type (passLoop now e st).toRemove
            (passLoop now e st).st).trans (passLoop_isProcessing now e st)

theorem processEvent_eventQueue (now : Nat) (e : EventData) (st : BusState) :
    ∃ ex, (processEvent now e st).2.1.eventQueue = st.eventQueue ++ ex := by
  cases hemp : (st.listeners e.type).isEmpty with
  | true => exact ⟨[], by rw [processEvent_of_empty hemp]; simp⟩
  | false =>
      rcases passLoop_eventQueue now e st with ⟨ex, hex⟩
      cases hsc : (passLoop now e st).shortCircuited with
      | true => exact ⟨ex, by rw [processEvent_of_short hemp hsc]; exact hex⟩
      | false =>
          refine ⟨ex, ?_⟩
          rw [processEvent_of_noShort hemp hsc]
          exact (foldlOff_eventQueue e.type (passLoop now e st).toRemove
            (passLoop now e st).st).trans hex

/-! Trace lemmas: which listeners run, in which order, and how passes nest. -/

theorem invokedIds_append (a b : List TraceEv) :
    invokedIds (a ++ b) = invokedIds a ++ invokedIds b := by
  unfold invokedIds
  exact List.filterMap_append a b _

theorem passStarts_append (a b : List TraceEv) :
    passStarts (a ++ b) = passStarts a ++ passStarts b := by
  unfold passStarts
  exact List.filterMap_append a b _

theorem processListeners_trace_starts (e : EventData) (ls : List ListenerConfig)
    (st : BusState) (acc : List String) :
    passStarts (processListeners e ls st acc).trace = [] := by
  induction ls generalizing st acc with
  | nil => rfl
  | cons c rest ih =>
      cases h2 : (c.listener e).2 with
      | ret r =>
          cases r with
          | none => simp only [processListeners, h2]; simpa [passStarts] using ih _ _
          | some b =>
              cases b with
              | true => simp [processListeners, h2, passStarts]
              | false => simp only [processListeners, h2]; simpa [passStarts] using ih _ _
      | throws => simp only [processListeners, h2]; simpa [passStarts] using ih _ _

theorem passLoop_trace_starts (now : Nat) (e : EventData) (st : BusState) :
    passStarts (passLoop now e st).trace = [] :=
  processListeners_trace_starts e _ _ []

/-- When no listener in the bucket strictly returns `true`, the loop does
not short-circuit and every listener is invoked in bucket order. -/
theorem processListeners_no_short {e : EventData} {ls : List ListenerConfig}
    (h : ∀ c ∈ ls, ¬ cbShort c e) (st : BusState) (acc : List String) :
    (processListeners e ls st acc).shortCircuited = false ∧
      invokedIds (processListeners e ls st acc).trace = ls.map (fun c => c.id) := by
  induction ls generalizing st acc with
  | nil => exact ⟨rfl, rfl⟩
  | cons c rest ih =>
      have hc : ¬ cbShort c e := h c (List.mem_cons_self c rest)
      have hrest : ∀ x ∈ rest, ¬ cbShort x e := fun x hx => h x (List.mem_cons_of_mem c hx)
      cases h2 : (c.listener e).2 with
      | ret r =>
          cases r with
          | none =>
              simp only [processListeners, h2]
              refine ⟨(ih hrest _ _).1, ?_⟩
              simpa [invokedIds] using (ih hrest _ _).2
          | some b =>
              cases b with
              | true => exact absurd h2 hc
              | false =>
                  simp only [processListeners, h2]
                  refine ⟨(ih hrest _ _).1, ?_⟩
                  simpa [invokedIds] using (ih hrest _ _).2
      | throws =>
          simp only [processListeners, h2]
          refine ⟨(ih hrest _ _).1, ?_⟩
          simpa [invokedIds] using (ih hrest _ _).2

/-- The first listener that strictly returns `true` stops the loop: the
invocations are exactly the non-short prefix followed by that listener. -/
theorem processListeners_short {e : EventData} (l₁ : List ListenerConfig)
    (c : ListenerConfig) (l₂ : List ListenerConfig)
    (h1 : ∀ x ∈ l₁, ¬ cbShort x e) (hc : cbShort c e) (st : BusState)
    (acc : List String) :
    (processListeners e (l₁ ++ c :: l₂) st acc).shortCircuited = true ∧
      invokedIds (processListeners e (l₁ ++ c :: l₂) st acc).trace
        = l₁.map (fun x => x.id) ++ [c.id] := by
  induction l₁ generalizing st acc with
  | nil =>
      unfold cbShort at hc
      simp [processListeners, hc, invokedIds]
  | cons x xs ih =>
      have hx : ¬ cbShort x e := h1 x (List.mem_cons_self x xs)
      have hxs : ∀ y ∈ xs, ¬ cbShort y e := fun y hy => h1 y (List.mem_cons_of_mem x hy)
      cases h2 : (x.listener e).2 with
      | ret r =>
          cases r with
          | none =>
              simp only [List.cons_append, processListeners, h2]
              refine ⟨(ih hxs _ _).1, ?_⟩
              simpa [invokedIds] using (ih hxs _ _).2
          | some b =>
              cases b with
              | true => exact absurd h2 hx
              | false =>
                  simp only [List.cons_append, processListeners, h2]
                  refine ⟨(ih hxs _ _).1, ?_⟩
                  simpa [invokedIds] using (ih hxs _ _).2
      | throws =>
          simp only [List.cons_append, processListeners, h2]
          refine ⟨(ih hxs _ _).1, ?_⟩
          simpa [invokedIds] using (ih hxs _ _).2

/-- Every pass trace is a passStart, a run of invocations, and a passEnd
carrying the pass's short-circuit result. -/
theorem processEvent_trace_shape (now : Nat) (e : EventData) (st : BusState) :
    ∃ mid, (processEvent now e st).2.2
        = TraceEv.passStart e :: mid ++ [TraceEv.passEnd e (processEvent now e st).1] ∧
      passStarts mid = [] := by
  cases hemp : (st.listeners e.type).isEmpty with
  | true => exact ⟨[], by rw [processEvent_of_empty hemp]; rfl, rfl⟩
  | false =>
      cases hsc : (passLoop now e st).shortCircuited with
      | true =>
          exact ⟨(passLoop now e st).trace,
            by rw [processEvent_of_short hemp hsc], passLoop_trace_starts now e st⟩
      | false =>
          exact ⟨(passLoop now e st).trace,
            by rw [processEvent_of_noShort hemp hsc], passLoop_trace_starts now e st⟩

theorem processEvent_passStarts (now : Nat) (e : EventData) (st : BusState) :
    passStarts (processEvent now e st).2.2 = [e] := by
  rcases processEvent_trace_shape now e st with ⟨mid, hsh, hmid⟩
  rw [hsh]
  simp [passStarts, List.filterMap_append]
  simpa [passStarts] using hmid

theorem processEvent_passEnd_mem (now : Nat) (e : EventData) (st : BusState) :
    TraceEv.passEnd e (processEvent now e st).1 ∈ (processEvent now e st).2.2 := by
  rcases processEvent_trace_shape now e st with ⟨mid, hsh, _⟩
  rw [hsh]
  exact List.mem_cons_of_mem _ (List.mem_append_right mid (List.mem_singleton.mpr rfl))

/-! Drain-loop lemmas: the pending FIFO queue is fully drained, in
submission order, before `emit` returns. -/

theorem drainQueue_of_nil {now fuel : Nat} {st : BusState}
    (hq : st.eventQueue = []) : drainQueue now fuel st = some (st, []) := by
  cases fuel <;> (unfold drainQueue; rw [hq])

theorem drainQueue_zero_cons {now : Nat} {st : BusState} {e : EventData}
    {rest : List EventData} (hq : st.eventQueue = e :: rest) :
    drainQueue now 0 st = none := by
  unfold drainQueue
  rw [hq]

theorem drainQueue_succ_cons_none {now fuel : Nat} {st : BusState} {e : EventData}
    {rest : List EventData} (hq : st.eventQueue = e :: rest)
    (hd : drainQueue now fuel (processEvent now e { st with eventQueue := rest }).2.1 = none) :
    drainQueue now (fuel + 1) st = none := by
  unfold drainQueue
  rw [hq]
  simp only [hd]

theorem drainQueue_succ_cons_some {now fuel : Nat} {st : BusState} {e : EventData}
    {rest : List EventData} {stFin : BusState} {tr : List TraceEv}
    (hq : st.eventQueue = e :: rest)
    (hd : drainQueue now fuel (processEvent now e { st with eventQueue := rest }).2.1
      = some (stFin, tr)) :
    drainQueue now (fuel + 1) st =
      some (stFin, (processEvent now e { st with eventQueue := rest }).2.2 ++ tr) := by
  unfold drainQueue
  rw [hq]
  simp only [hd]

theorem drainQueue_queue_empty {now fuel : Nat} {st : BusState}
    {res : BusState × List TraceEv} (h : drainQueue now fuel st = some res) :
    res.1.eventQueue = [] := by
  induction fuel generalizing st res with
  | zero =>
      cases hq : st.eventQueue with
      | nil =>
          rw [drainQueue_of_nil hq] at h
          cases h
          exact hq
      | cons e rest => rw [drainQueue_zero_cons hq] at h; cases h
  | succ fuel ih =>
      cases hq : st.eventQueue with
      | nil =>
          rw [drainQueue_of_nil hq] at h
          cases h
          exact hq
      | cons e rest =>
          cases hd : drainQueue now fuel
              (processEvent now e { st with eventQueue := rest }).2.1 with
          | none => rw [drainQueue_succ_cons_none hq hd] at h; cases h
          | some res2 =>
              obtain ⟨stFin, tr⟩ := res2
              rw [drainQueue_succ_cons_some hq hd] at h
              cases h
              have hres := ih hd
              exact hres

theorem drainQueue_fifo {now fuel : Nat} {st : BusState}
    {res : BusState × List TraceEv} (h : drainQueue now fuel st = some res) :
    st.eventQueue <+: passStarts res.2 := by
  induction fuel generalizing st res with
  | zero =>
      cases hq : st.eventQueue with
      | nil =>
          rw [drainQueue_of_nil hq] at h
          cases h
          exact List.nil_prefix
      | cons e rest => rw [drainQueue_zero_cons hq] at h; cases h
  | succ fuel ih =>
      cases hq : st.eventQueue with
      | nil =>
          rw [drainQueue_of_nil hq] at h
          cases h
          exact List.nil_prefix
      | cons e rest =>
          cases hd : drainQueue now fuel
              (processEvent now e { st with eventQueue := rest }).2.1 with
          | none => rw [drainQueue_succ_cons_none hq hd] at h; cases h
          | some res2 =>
              obtain ⟨stFin, tr⟩ := res2
              rw [drainQueue_succ_cons_some hq hd] at h
              cases h
              have hstarts : passStarts ((processEvent now e
                  { st with eventQueue := rest }).2.2 ++ tr) = e :: passStarts tr := by
                rw [passStarts_append, processEvent_passStarts]
                rfl
              rw [hstarts]
              rcases processEvent_eventQueue now e { st with eventQueue := rest } with ⟨ex, hex⟩
              have hrest : rest <+: passStarts tr := by
                have hpre : (rest : List EventData) <+: rest ++ ex := List.prefix_append rest ex
                have hq2 : (processEvent now e { st with eventQueue := rest }).2.1.eventQueue
                    = rest ++ ex := hex
                exact List.IsPrefix.trans (hq2 ▸ hpre : rest <+: _) (ih hd)
              rcases hrest with ⟨t, ht⟩
              exact ⟨t, by rw [List.cons_append, ht]⟩

theorem drainQueue_completes {now fuel : Nat} {st : BusState}
    {res : BusState × List TraceEv} (h : drainQueue now fuel st = some res) :
    ∀ e ∈ st.eventQueue, ∃ b, TraceEv.passEnd e b ∈ res.2 := by
  induction fuel generalizing st res with
  | zero =>
      cases hq : st.eventQueue with
      | nil => intro x hx; exact absurd hx (List.not_mem_nil x)
      | cons e rest => rw [drainQueue_zero_cons hq] at h; cases h
  | succ fuel ih =>
      cases hq : st.eventQueue with
      | nil => intro x hx; exact absurd hx (List.not_mem_nil x)
      | cons e rest =>
          cases hd : drainQueue now fuel
              (processEvent now e { st with eventQueue := rest }).2.1 with
          | none => rw [drainQueue_succ_cons_none hq hd] at h; cases h
          | some res2 =>
              obtain ⟨stFin, tr⟩ := res2
              rw [drainQueue_succ_cons_some hq hd] at h
              cases h
              intro x hx
              rcases List.mem_cons.mp hx with rfl | hx2
              · exact ⟨(processEvent now x { st with eventQueue := rest }).1,
                  List.mem_append_left tr (processEvent_passEnd_mem now x _)⟩
              · rcases processEvent_eventQueue now e { st with eventQueue := rest } with ⟨ex, hex⟩
                have hx3 : x ∈ (processEvent now e { st with eventQueue := rest }).2.1.eventQueue := by
                  rw [hex]
                  exact List.mem_append_left ex hx2
                rcases ih hd x hx3 with ⟨b, hb⟩
                exact ⟨b, List.mem_append_right _ hb⟩

/-! Emit-level lemmas. -/

/-- A busy bus queues the record and answers `false` at once, invoking
nothing. -/
theorem emit_busy {fuel now : Nat} {e : EventData} {st : BusState}
    (h : st.isProcessing = true) :
    emit fuel now e st =
      some (false, { st with eventQueue := st.eventQueue ++ [e] }, []) := by
  unfold emit
  rw [if_pos h]

/-- Inversion of a completed idle-bus emit into its pass and drain parts. -/
theorem emit_idle_inv {fuel now : Nat} {e : EventData} {st : BusState}
    {out : Bool × BusState × List TraceEv} (h : st.isProcessing = false)
    (hrun : emit fuel now e st = some out) :
    ∃ stD trD,
      drainQueue now fuel (processEvent now e { st with isProcessing := true }).2.1
        = some (stD, trD) ∧
      out.1 = (processEvent now e { st with isProcessing := true }).1 ∧
      out.2.1 = { stD with isProcessing := false } ∧
      out.2.2 = (processEvent now e { st with isProcessing := true }).2.2 ++ trD := by
  unfold emit at hrun
  rw [if_neg (by simp [h])] at hrun
  cases hd : drainQueue now fuel (processEvent now e { st with isProcessing := true }).2.1 with
  | none =>
      simp only [hd] at hrun
      exact Option.noConfusion hrun
  | some p =>
      obtain ⟨stD, trD⟩ := p
      simp only [hd] at hrun
      injection hrun with hout
      exact ⟨stD, trD, rfl, by rw [← hout], by rw [← hout], by rw [← hout]⟩

theorem invokedIds_passWrap (e : EventData) (b : Bool) (mid : List TraceEv) :
    invokedIds (TraceEv.passStart e :: mid ++ [TraceEv.passEnd e b]) = invokedIds mid := by
  simp [invokedIds, List.filterMap_append]

/-- All listeners run, in bucket order, when none strictly returns `true`;
the pass reports no short-circuit. -/
theorem processEvent_no_short_run (now : Nat) {e : EventData} {st : BusState}
    (h : ∀ c ∈ st.listeners e.type, ¬ cbShort c e) :
    (processEvent now e st).1 = false ∧
      invokedIds (processEvent now e st).2.2
        = (st.listeners e.type).map (fun c => c.id) := by
  cases hemp : (st.listeners e.type).isEmpty with
  | true =>
      have hnil : st.listeners e.type = [] := by
        cases hl : st.listeners e.type with
        | nil => rfl
        | cons a as => rw [hl] at hemp; cases hemp
      rw [processEvent_of_empty hemp, hnil]
      exact ⟨rfl, rfl⟩
  | false =>
      have hloop := processListeners_no_short h (withPassCtx now e st) []
      have hsc : (passLoop now e st).shortCircuited = false := hloop.1
      rw [processEvent_of_noShort hemp hsc]
      exact ⟨rfl, (invokedIds_passWrap e false _).trans hloop.2⟩

/-- The first strictly-`true` listener ends the pass: exactly the earlier
listeners and that one run, and the pass reports a short-circuit. -/
theorem processEvent_short_run {now : Nat} {e : EventData} {st : BusState}
    (l₁ : List ListenerConfig) (c : ListenerConfig) (l₂ : List ListenerConfig)
    (hls : st.listeners e.type = l₁ ++ c :: l₂)
    (h1 : ∀ x ∈ l₁, ¬ cbShort x e) (hc : cbShort c e) :
    (processEvent now e st).1 = true ∧
      invokedIds (processEvent now e st).2.2 = l₁.map (fun x => x.id) ++ [c.id] := by
  have hemp : (st.listeners e.type).isEmpty = false := by
    rw [hls]; cases l₁ <;> rfl
  have hloop0 := processListeners_short l₁ c l₂ h1 hc (withPassCtx now e st) []
  have hsc : (passLoop now e st).shortCircuited = true := by
    show (processListeners e (st.listeners e.type) (withPassCtx now e st) []).shortCircuited = true
    rw [hls]
    exact hloop0.1
  have hids : invokedIds (passLoop now e st).trace = l₁.map (fun x => x.id) ++ [c.id] := by
    show invokedIds (processListeners e (st.listeners e.type) (withPassCtx now e st) []).trace = _
    rw [hls]
    exact hloop0.2
  rw [processEvent_of_short hemp hsc]
  exact ⟨rfl, (invokedIds_passWrap e true _).trans hids⟩

/-- C10: an emit that finds the dispatcher idle lowers the processing flag
and leaves the pending queue empty when its promise resolves, and the
boolean it resolves to is the short-circuit result of the directly-passed
record's own pass (callback throws are contained inside the pass and the
drain, so they cannot break this). -/
theorem emit_postcondition (fuel now : Nat) (e : EventData) (st : BusState)
    (out : Bool × BusState × List TraceEv)
    (hidle : st.isProcessing = false) (hrun : emit fuel now e st = some out) :
    out.2.1.isProcessing = false ∧ out.2.1.eventQueue = [] ∧
      out.1 = (processEvent now e { st with isProcessing := true }).1 := by
  rcases emit_idle_inv hidle hrun with ⟨stD, trD, hd, h1, h2, h3⟩
  refine ⟨by rw [h2], ?_, h1⟩
  rw [h2]
  exact drainQueue_queue_empty hd

/-- C2: a record emitted while a pass is active is queued and its emit call
answers `false` with no listener run; a completed idle-bus emit of A first
runs A's whole pass (passStart, invocations, passEnd), then the passes of
everything queued during it, drained FIFO so the queued records form a
prefix of the subsequent pass order, each queued record's pass completing
before emit(A) resolves. -/
theorem emit_reentrancy_queue_fifo (fuel now : Nat) (A : EventData)
    (st : BusState) (sc : Bool) (stOut : BusState) (tr : List TraceEv)
    (hidle : st.isProcessing = false) (_hq0 : st.eventQueue = [])
    (hrun : emit fuel now A st = some (sc, stOut, tr)) :
    (∀ (B : EventData) (stq : BusState) (f n : Nat), stq.isProcessing = true →
        emit f n B stq = some (false, { stq with eventQueue := stq.eventQueue ++ [B] }, [])) ∧
    (∃ trD,
      tr = (processEvent now A { st with isProcessing := true }).2.2 ++ trD ∧
      sc = (processEvent now A { st with isProcessing := true }).1 ∧
      (∃ mid, (processEvent now A { st with isProcessing := true }).2.2
          = TraceEv.passStart A :: mid ++ [TraceEv.passEnd A sc] ∧ passStarts mid = []) ∧
      (processEvent now A { st with isProcessing := true }).2.1.eventQueue <+: passStarts trD ∧
      (∀ B ∈ (processEvent now A { st with isProcessing := true }).2.1.eventQueue,
        ∃ b, TraceEv.passEnd B b ∈ trD)) := by
  refine ⟨fun B stq f n hb => emit_busy hb, ?_⟩
  rcases emit_idle_inv hidle hrun with ⟨stD, trD, hd, h1, _h2, h3⟩
  have hsc2 : sc = (processEvent now A { st with isProcessing := true }).1 := h1
  have htr2 : tr = (processEvent now A { st with isProcessing := true }).2.2 ++ trD := h3
  refine ⟨trD, htr2, hsc2, ?_, drainQueue_fifo hd, drainQueue_completes hd⟩
  rcases processEvent_trace_shape now A { st with isProcessing := true } with ⟨mid, hsh, hmid⟩
  refine ⟨mid, ?_, hmid⟩
  rw [hsh, ← hsc2]

/-- C4: a strictly-`true` callback result short-circuits the pass — no
later listener runs and both the pass and the idle-bus emit that started
it answer `true`; when no callback strictly returns `true`, every
registered listener of the kind runs and the pass answers `false`. -/
theorem pass_short_circuit_behavior (now : Nat) (e : EventData) (st : BusState) :
    ((∀ c ∈ st.listeners e.type, ¬ cbShort c e) →
        (processEvent now e st).1 = false ∧
        invokedIds (processEvent now e st).2.2
          = (st.listeners e.type).map (fun c => c.id)) ∧
    (∀ l₁ c l₂, st.listeners e.type = l₁ ++ c :: l₂ →
        (∀ x ∈ l₁, ¬ cbShort x e) → cbShort c e →
        (processEvent now e st).1 = true ∧
        invokedIds (processEvent now e st).2.2 = l₁.map (fun x => x.id) ++ [c.id]) ∧
    (∀ (fuel : Nat) (out : Bool × BusState × List TraceEv),
        st.isProcessing = false → emit fuel now e st = some out →
        out.1 = (processEvent now e { st with isProcessing := true }).1) := by
  refine ⟨fun h => processEvent_no_short_run now h,
    fun l₁ c l₂ hls h1 hc => processEvent_short_run l₁ c l₂ hls h1 hc,
    fun fuel out hidle hrun => ?_⟩
  rcases emit_idle_inv hidle hrun with ⟨stD, trD, _, h1, _, _⟩
  exact h1

/-! Execution-context lemmas, for the scratch-map lifecycle. -/

theorem ctxLookup_cons (p : String × CtxVal) (rest : List (String × CtxVal))
    (k : String) :
    ctxLookup (p :: rest) k = if p.1 = k then some p.2 else ctxLookup rest k := by
  unfold ctxLookup
  by_cases hp : p.1 = k
  · rw [List.find?_cons_of_pos _ (by simp [hp]), if_pos hp]
    rfl
  · rw [List.find?_cons_of_neg _ (by simp [hp]), if_neg hp]

theorem ctxLookup_jsMapSet_self (m : List (String × CtxVal)) (k : String)
    (v : CtxVal) : ctxLookup (jsMapSet m k v) k = some v := by
  induction m with
  | nil => simp [jsMapSet, ctxLookup_cons, ctxLookup]
  | cons p ps ih =>
      by_cases hp : p.1 = k
      · simp [jsMapSet, hp, ctxLookup_cons]
      · simp [jsMapSet, hp, ctxLookup_cons, ih]

theorem ctxLookup_jsMapSet_other (m : List (String × CtxVal)) (k k2 : String)
    (v : CtxVal) (hne : k2 ≠ k) :
    ctxLookup (jsMapSet m k v) k2 = ctxLookup m k2 := by
  induction m with
  | nil =>
      have h1 : ¬ (((k, v) : String × CtxVal).1 = k2) := fun h => hne h.symm
      rw [jsMapSet, ctxLookup_cons, if_neg h1]
  | cons p ps ih =>
      by_cases hp : p.1 = k
      · have h1 : ¬ (((k, v) : String × CtxVal).1 = k2) := fun h => hne h.symm
        have h2 : ¬ (p.1 = k2) := fun h => hne (h.symm.trans hp)
        rw [jsMapSet, if_pos hp, ctxLookup_cons, ctxLookup_cons, if_neg h1, if_neg h2]
      · rw [jsMapSet, if_neg hp, ctxLookup_cons, ctxLookup_cons, ih]

theorem jsMapSet_jsMapSet_same (m : List (String × CtxVal)) (k : String)
    (v w : CtxVal) : jsMapSet (jsMapSet m k v) k w = jsMapSet m k w := by
  induction m with
  | nil => simp [jsMapSet]
  | cons p ps ih =>
      by_cases hp : p.1 = k
      · simp [jsMapSet, hp]
      · simp [jsMapSet, hp, ih]

/-- A short-circuited listener loop leaves the scratch map exactly as the
underlying map with the short-circuiting listener stored under
`currentListener`. -/
theorem processListeners_ctx_short {e : EventData} {ls : List ListenerConfig}
    {st : BusState} {acc : List String}
    (hsc : (processListeners e ls st acc).shortCircuited = true) :
    ∃ c ∈ ls, (processListeners e ls st acc).st.executionContext
      = jsMapSet st.executionContext "currentListener" (CtxVal.listenerEntry c) := by
  induction ls generalizing st acc with
  | nil => simp [processListeners] at hsc
  | cons c rest ih =>
      cases h2 : (c.listener e).2 with
      | ret r =>
          cases r with
          | none =>
              simp only [processListeners, h2] at hsc ⊢
              rcases ih hsc with ⟨c2, hc2, hctx⟩
              refine ⟨c2, List.mem_cons_of_mem c hc2, ?_⟩
              rw [hctx]
              exact jsMapSet_jsMapSet_same _ _ _ _
          | some b =>
              cases b with
              | true =>
                  exact ⟨c, List.mem_cons_self c rest, by simp [processListeners, h2]⟩
              | false =>
                  simp only [processListeners, h2] at hsc ⊢
                  rcases ih hsc with ⟨c2, hc2, hctx⟩
                  refine ⟨c2, List.mem_cons_of_mem c hc2, ?_⟩
                  rw [hctx]
                  exact jsMapSet_jsMapSet_same _ _ _ _
      | throws =>
          simp only [processListeners, h2] at hsc ⊢
          rcases ih hsc with ⟨c2, hc2, hctx⟩
          refine ⟨c2, List.mem_cons_of_mem c hc2, ?_⟩
          rw [hctx]
          exact jsMapSet_jsMapSet_same _ _ _ _

theorem ctxLookup_passContext_event (now : Nat) (e : EventData)
    (ctx : List (String × CtxVal)) :
    ctxLookup (passContext now e ctx) "currentEvent" = some (CtxVal.event e) := by
  unfold passContext
  rw [ctxLookup_jsMapSet_other _ _ _ _ (by decide)]
  exact ctxLookup_jsMapSet_self _ _ _

theorem ctxLookup_passContext_time (now : Nat) (e : EventData)
    (ctx : List (String × CtxVal)) :
    ctxLookup (passContext now e ctx) "startTime" = some (CtxVal.time now) := by
  unfold passContext
  exact ctxLookup_jsMapSet_self _ _ _

/-- C8 (amended): on a kind with listeners, a completed pass ends with the
scratch map cleared, while a short-circuited pass skips the clearing and
leaves the currentEvent, startTime and currentListener entries set. -/
theorem execution_context_lifecycle (now : Nat) (e : EventData) (st : BusState)
    (hne : (st.listeners e.type).isEmpty = false) :
    ((processEvent now e st).1 = false →
        (processEvent now e st).2.1.executionContext = []) ∧
    ((processEvent now e st).1 = true →
        ctxLookup (processEvent now e st).2.1.executionContext "currentEvent"
          = some (CtxVal.event e) ∧
        ctxLookup (processEvent now e st).2.1.executionContext "startTime"
          = some (CtxVal.time now) ∧
        ∃ c ∈ st.listeners e.type,
          ctxLookup (processEvent now e st).2.1.executionContext "currentListener"
            = some (CtxVal.listenerEntry c)) := by
  cases hsc : (passLoop now e st).shortCircuited with
  | false =>
      rw [processEvent_of_noShort hne hsc]
      refine ⟨fun _ => rfl, fun h => ?_⟩
      exact Bool.noConfusion h
  | true =>
      rw [processEvent_of_short hne hsc]
      refine ⟨fun h => Bool.noConfusion h, fun _ => ?_⟩
      rcases processListeners_ctx_short hsc with ⟨c, hcmem, hctx⟩
      have hctx2 : (passLoop now e st).st.executionContext
          = jsMapSet (passContext now e st.executionContext) "currentListener"
              (CtxVal.listenerEntry c) := hctx
      refine ⟨?_, ?_, c, hcmem, ?_⟩
      · show ctxLookup (passLoop now e st).st.executionContext "currentEvent" = _
        rw [hctx2, ctxLookup_jsMapSet_other _ _ _ _ (by decide)]
        exact ctxLookup_passContext_event now e _
      · show ctxLookup (passLoop now e st).st.executionContext "startTime" = _
        rw [hctx2, ctxLookup_jsMapSet_other _ _ _ _ (by decide)]
        exact ctxLookup_passContext_time now e _
      · show ctxLookup (passLoop now e st).st.executionContext "currentListener" = _
        rw [hctx2]
        exact ctxLookup_jsMapSet_self _ _ _

/-! Registration-order consequences (toward the priority-order property). -/

theorem foldl_onEvent_ordered {st : BusState} (h : RegistryOrdered st)
    (t : EventType) (order : List ListenerConfig) :
    RegistryOrdered (order.foldl (fun s c => onEvent t c s) st) := by
  induction order generalizing st with
  | nil => exact h
  | cons c cs ih => exact ih (onEvent_preserves_ordered h t c)

theorem foldl_onEvent_bucket_perm (t : EventType) (order : List ListenerConfig)
    (st : BusState) :
    List.Perm ((order.foldl (fun s c => onEvent t c s) st).listeners t)
      (order ++ st.listeners t) := by
  induction order generalizing st with
  | nil => exact List.Perm.refl _
  | cons c cs ih =>
      have h1 := ih (onEvent t c st)
      have h2 : List.Perm ((onEvent t c st).listeners t) (c :: st.listeners t) := by
        rw [onEvent_listeners_self]
        exact (sortByPriorityDesc_perm _).trans (List.perm_append_singleton c _)
      exact (h1.trans ((List.Perm.append_left cs h2).trans List.perm_middle))

theorem sorted_strict_eq {l m : List ListenerConfig}
    (hperm : List.Perm l m)
    (hl : List.Pairwise (fun a b => b.priority < a.priority) l)
    (hm : List.Pairwise (fun a b => b.priority < a.priority) m) : l = m := by
  haveI : IsAntisymm ListenerConfig (fun a b => b.priority < a.priority) :=
    ⟨fun a b h1 h2 => absurd h2 (not_lt.mpr (le_of_lt h1))⟩
  exact List.eq_of_perm_of_sorted hperm hl hm

/-- A sorted bucket that is a permutation of three registrations with
strictly decreasing priorities is exactly that strictly ordered list. -/
theorem bucket_eq_three {c1 c2 c3 : ListenerConfig} {l : List ListenerConfig}
    (h21 : c2.priority < c1.priority) (h32 : c3.priority < c2.priority)
    (hsorted : PrioSorted l) (hperm : List.Perm l [c1, c2, c3]) :
    l = [c1, c2, c3] := by
  have hne12 : c1 ≠ c2 := fun h => absurd h21 (by rw [h]; exact lt_irrefl _)
  have hne13 : c1 ≠ c3 := fun h => absurd (lt_trans h32 h21) (by rw [h]; exact lt_irrefl _)
  have hne23 : c2 ≠ c3 := fun h => absurd h32 (by rw [h]; exact lt_irrefl _)
  have hnd3 : List.Nodup [c1, c2, c3] := by
    simp [List.nodup_cons, hne12, hne13, hne23]
  have hnd : l.Nodup := hperm.symm.nodup hnd3
  have hpair : l.Pairwise (fun a b => (b.priority ≤ a.priority) ∧ a ≠ b) :=
    hsorted.and hnd
  have hstrict : l.Pairwise (fun a b => b.priority < a.priority) := by
    refine hpair.imp_of_mem ?_
    intro a b ha hb hab
    rcases hab with ⟨hle, hne⟩
    have ha3 : a ∈ [c1, c2, c3] := hperm.mem_iff.mp ha
    have hb3 : b ∈ [c1, c2, c3] := hperm.mem_iff.mp hb
    have hpne : a.priority ≠ b.priority := by
      have ha4 : a = c1 ∨ a = c2 ∨ a = c3 := by simpa using ha3
      have hb4 : b = c1 ∨ b = c2 ∨ b = c3 := by simpa using hb3
      rcases ha4 with ha5 | ha5 | ha5 <;> rcases hb4 with hb5 | hb5 | hb5 <;>
        first
          | exact absurd (ha5.trans hb5.symm) hne
          | (rw [ha5, hb5]; omega)
    exact lt_of_le_of_ne hle (fun h => hpne h.symm)
  have htgt : List.Pairwise (fun a b => b.priority < a.priority) [c1, c2, c3] := by
    refine List.Pairwise.cons ?_ (List.Pairwise.cons ?_ (List.Pairwise.cons ?_ List.Pairwise.nil))
    · intro b hb
      rcases List.mem_cons.mp hb with rfl | hb
      · exact h21
      rcases List.mem_cons.mp hb with rfl | hb
      · exact lt_trans h32 h21
      · cases hb
    · intro b hb
      rcases List.mem_cons.mp hb with rfl | hb
      · exact h32
      · cases hb
    · intro b hb
      cases hb
  exact sorted_strict_eq hperm hstrict htgt

/-- C5: every kind's bucket stays sorted by non-increasing priority with
ties in registration order — preserved by subscribe, unsubscribe,
once-expiry (inside a pass) and remove-by-owner — and consequently three
listeners with strictly decreasing priorities are invoked in priority
order by a non-short-circuiting emit regardless of registration order. -/
theorem listener_order_invariant :
    (∀ (t : EventType) (cfg : ListenerConfig) (st : BusState), RegistryOrdered st →
        RegistryOrdered (onEvent t cfg st)) ∧
    (∀ (t : EventType) (cfg : ListenerConfig) (st : BusState), RegistryOrdered st →
        (onEvent t cfg st).listeners t =
          (st.listeners t).takeWhile (aheadOf cfg) ++
            cfg :: (st.listeners t).dropWhile (aheadOf cfg)) ∧
    (∀ (t : EventType) (lid : String) (st : BusState), RegistryOrdered st →
        RegistryOrdered (off t lid st).2) ∧
    (∀ (src : String) (st : BusState), RegistryOrdered st →
        RegistryOrdered (removeListenersBySource src st)) ∧
    (∀ (now : Nat) (e : EventData) (st : BusState), RegistryOrdered st →
        RegistryOrdered (processEvent now e st).2.1) ∧
    (∀ (t : EventType) (c1 c2 c3 : ListenerConfig) (order : List ListenerConfig)
        (now : Nat) (e : EventData),
        c2.priority < c1.priority → c3.priority < c2.priority →
        List.Perm order [c1, c2, c3] → e.type = t →
        (∀ x ∈ order, ¬ cbShort x e) →
        (order.foldl (fun s c => onEvent t c s) emptyBus).listeners t = [c1, c2, c3] ∧
        (processEvent now e (order.foldl (fun s c => onEvent t c s) emptyBus)).1 = false ∧
        invokedIds (processEvent now e (order.foldl (fun s c => onEvent t c s) emptyBus)).2.2
          = [c1.id, c2.id, c3.id]) := by
  refine ⟨fun t cfg st h => onEvent_preserves_ordered h t cfg,
    fun t cfg st h => ?_,
    fun t lid st h => off_preserves_ordered h t lid,
    fun src st h => removeListenersBySource_preserves_ordered h src,
    fun now e st h => processEvent_listeners_ordered h now e,
    fun t c1 c2 c3 order now e h21 h32 hperm htype hns => ?_⟩
  · rw [onEvent_listeners_self]
    exact sortByPriorityDesc_append_single (h t) cfg
  · have hEB : RegistryOrdered emptyBus := fun _ => List.Pairwise.nil
    have hord : RegistryOrdered (order.foldl (fun s c => onEvent t c s) emptyBus) :=
      foldl_onEvent_ordered hEB t order
    have hob := foldl_onEvent_bucket_perm t order emptyBus
    have h0 : emptyBus.listeners t = [] := rfl
    rw [h0, List.append_nil] at hob
    have hpermB := hob.trans hperm
    have hbucket : (order.foldl (fun s c => onEvent t c s) emptyBus).listeners t
        = [c1, c2, c3] := bucket_eq_three h21 h32 (hord t) hpermB
    have hlst : (order.foldl (fun s c => onEvent t c s) emptyBus).listeners e.type
        = [c1, c2, c3] := by
      rw [htype]
      exact hbucket
    have hns2 : ∀ x ∈ (order.foldl (fun s c => onEvent t c s) emptyBus).listeners e.type,
        ¬ cbShort x e := by
      intro x hx
      rw [hlst] at hx
      exact hns x (hperm.mem_iff.mpr hx)
    have hrun := processEvent_no_short_run now hns2
    refine ⟨hbucket, hrun.1, ?_⟩
    rw [hrun.2, hlst]
    rfl

/-! Concrete dispatcher scenarios for the counterexample and witness
theorems. -/

def cbRetTrue : Callback := fun _ => ([], CbOutcome.ret (some true))

def cbRetFalse : Callback := fun _ => ([], CbOutcome.ret (some false))

def cbRetNone : Callback := fun _ => ([], CbOutcome.ret none)

def cbThrows : Callback := fun _ => ([], CbOutcome.throws)

def evKeydown : EventData := { type := EventType.KEYDOWN, tag := 0 }

def c1Listener : ListenerConfig :=
  { id := "once1", listener := cbRetTrue, priority := 0, once := true, source := "pluginA" }

def c1Bus : BusState := onEvent EventType.KEYDOWN c1Listener emptyBus

def c1BusAfter : BusState := ((emit 1 0 evKeydown c1Bus).getD (false, c1Bus, [])).2.1

/-- C1: a once listener whose callback returns `true` short-circuits its
first pass, but processEvent returns from inside the loop before applying
the scheduled removals (src/unnamed/part_001 line 182 versus 199-201), so
the listener is still registered and its callback runs again on the next
emit of the kind — two invocations in total, refuting at-most-once. -/
theorem c1_once_short_circuit_fires_twice :
    ((emit 1 0 evKeydown c1Bus).map (fun r => (r.1, invokedIds r.2.2)))
      = some (true, ["once1"]) ∧
    ((emit 1 0 evKeydown c1Bus).map
        (fun r => (r.2.1.listeners EventType.KEYDOWN).map (fun c => c.id)))
      = some ["once1"] ∧
    ((emit 1 0 evKeydown c1BusAfter).map (fun r => invokedIds r.2.2))
      = some ["once1"] := by
  exact ⟨rfl, rfl, rfl⟩

def c6Thrower : ListenerConfig :=
  { id := "fault1", listener := cbThrows, priority := 10, once := true, source := "pluginA" }

def c6Short : ListenerConfig :=
  { id := "stop2", listener := cbRetTrue, priority := 0, once := false, source := "pluginB" }

def c6Bus : BusState :=
  onEvent EventType.KEYDOWN c6Short (onEvent EventType.KEYDOWN c6Thrower emptyBus)

def c6BusAfter : BusState := ((emit 1 0 evKeydown c6Bus).getD (false, c6Bus, [])).2.1

/-- C6: the faulting once listener's throw is caught and the pass
continues to the next listener, which short-circuits; the early return
then skips the scheduled removal, so the faulting once listener is still
registered and runs again on the next emit — refuting removed-afterwards. -/
theorem c6_faulting_once_survives_short_circuit :
    ((emit 1 0 evKeydown c6Bus).map (fun r => (r.1, invokedIds r.2.2)))
      = some (true, ["fault1", "stop2"]) ∧
    ((emit 1 0 evKeydown c6Bus).map
        (fun r => (r.2.1.listeners EventType.KEYDOWN).map (fun c => c.id)))
      = some ["fault1", "stop2"] ∧
    ((emit 1 0 evKeydown c6BusAfter).map (fun r => invokedIds r.2.2))
      = some ["fault1", "stop2"] := by
  exact ⟨rfl, rfl, rfl⟩

def c8Listener : ListenerConfig :=
  { id := "sc8", listener := cbRetTrue, priority := 0, once := false, source := "pluginC" }

def c8Bus : BusState := onEvent EventType.KEYDOWN c8Listener emptyBus

/-- C8 counterexample: a short-circuited pass ends with the scratch map
still holding its three entries, refuting cleared-by-end-of-pass
whether-or-not-short-circuited. -/
theorem c8_context_not_cleared_on_short_circuit :
    (processEvent 5 evKeydown c8Bus).1 = true ∧
    ((processEvent 5 evKeydown c8Bus).2.1.executionContext).isEmpty = false ∧
    ((processEvent 5 evKeydown c8Bus).2.1.executionContext).map (fun p => p.1)
      = ["currentEvent", "startTime", "currentListener"] := by
  exact ⟨rfl, rfl, rfl⟩

/-- Witness instantiating the amended context-lifecycle theorem. -/
theorem execution_context_lifecycle_witness :
    ((processEvent 5 evKeydown c8Bus).1 = false →
        (processEvent 5 evKeydown c8Bus).2.1.executionContext = []) ∧
    ((processEvent 5 evKeydown c8Bus).1 = true →
        ctxLookup (processEvent 5 evKeydown c8Bus).2.1.executionContext "currentEvent"
          = some (CtxVal.event evKeydown) ∧
        ctxLookup (processEvent 5 evKeydown c8Bus).2.1.executionContext "startTime"
          = some (CtxVal.time 5) ∧
        ∃ c ∈ c8Bus.listeners EventType.KEYDOWN,
          ctxLookup (processEvent 5 evKeydown c8Bus).2.1.executionContext "currentListener"
            = some (CtxVal.listenerEntry c)) :=
  execution_context_lifecycle 5 evKeydown c8Bus rfl

def c10Listener : ListenerConfig :=
  { id := "plain", listener := cbRetFalse, priority := 0, once := false, source := "pluginD" }

def c10Bus : BusState := onEvent EventType.KEYDOWN c10Listener emptyBus

def c10Out : Bool × BusState × List TraceEv :=
  (emit 1 7 evKeydown c10Bus).getD (true, c10Bus, [])

/-- Witness instantiating the emit postcondition theorem. -/
theorem emit_postcondition_witness :
    c10Out.2.1.isProcessing = false ∧ c10Out.2.1.eventQueue = [] ∧
      c10Out.1 = (processEvent 7 evKeydown { c10Bus with isProcessing := true }).1 :=
  emit_postcondition 1 7 evKeydown c10Bus c10Out rfl rfl

def c2EvA : EventData := { type := EventType.CUSTOM, tag := 0 }

def c2EvB : EventData := { type := EventType.KEYDOWN, tag := 1 }

def c2Emitter : ListenerConfig :=
  { id := "emitsB", listener := fun _ => ([c2EvB], CbOutcome.ret none), priority := 0,
    once := false, source := "pluginE" }

def c2Handler : ListenerConfig :=
  { id := "handlesB", listener := cbRetNone, priority := 0, once := false, source := "pluginE" }

def c2Bus : BusState :=
  onEvent EventType.KEYDOWN c2Handler (onEvent EventType.CUSTOM c2Emitter emptyBus)

def c2Out : Bool × BusState × List TraceEv :=
  (emit 2 0 c2EvA c2Bus).getD (true, c2Bus, [])

/-- Witness instantiating the reentrancy/FIFO theorem on a bus where the
CUSTOM listener emits a KEYDOWN record during its own pass. -/
theorem emit_reentrancy_queue_fifo_witness :
    (∀ (B : EventData) (stq : BusState) (f n : Nat), stq.isProcessing = true →
        emit f n B stq = some (false, { stq with eventQueue := stq.eventQueue ++ [B] }, [])) ∧
    (∃ trD,
      c2Out.2.2 = (processEvent 0 c2EvA { c2Bus with isProcessing := true }).2.2 ++ trD ∧
      c2Out.1 = (processEvent 0 c2EvA { c2Bus with isProcessing := true }).1 ∧
      (∃ mid, (processEvent 0 c2EvA { c2Bus with isProcessing := true }).2.2
          = TraceEv.passStart c2EvA :: mid ++ [TraceEv.passEnd c2EvA c2Out.1] ∧
        passStarts mid = []) ∧
      (processEvent 0 c2EvA { c2Bus with isProcessing := true }).2.1.eventQueue
        <+: passStarts trD ∧
      (∀ B ∈ (processEvent 0 c2EvA { c2Bus with isProcessing := true }).2.1.eventQueue,
        ∃ b, TraceEv.passEnd B b ∈ trD)) :=
  emit_reentrancy_queue_fifo 2 0 c2EvA c2Bus c2Out.1 c2Out.2.1 c2Out.2.2 rfl rfl rfl

def c4A : ListenerConfig :=
  { id := "hiA", listener := cbRetNone, priority := 5, once := false, source := "pluginF" }

def c4B : ListenerConfig :=
  { id := "midB", listener := cbRetTrue, priority := 3, once := false, source := "pluginF" }

def c4C : ListenerConfig :=
  { id := "lowC", listener := cbRetFalse, priority := 1, once := false, source := "pluginF" }

def c4Bus : BusState :=
  onEvent EventType.KEYDOWN c4C
    (onEvent EventType.KEYDOWN c4B (onEvent EventType.KEYDOWN c4A emptyBus))

/-- Witness instantiating the short-circuit theorem: the middle-priority
listener returns `true`, so only it and the higher one run. -/
theorem pass_short_circuit_behavior_witness :
    (processEvent 0 evKeydown c4Bus).1 = true ∧
    invokedIds (processEvent 0 evKeydown c4Bus).2.2 = ["hiA", "midB"] :=
  (pass_short_circuit_behavior 0 evKeydown c4Bus).2.1 [c4A] c4B [c4C] rfl
    (by
      intro x hx
      rw [List.mem_singleton] at hx
      rw [hx]
      decide)
    (by decide)

def c5High : ListenerConfig :=
  { id := "p10", listener := cbRetNone, priority := 10, once := false, source := "pluginG" }

def c5Mid : ListenerConfig :=
  { id := "p5", listener := cbRetFalse, priority := 5, once := false, source := "pluginG" }

def c5Low : ListenerConfig :=
  { id := "p0", listener := cbRetNone, priority := 0, once := false, source := "pluginG" }

/-- Witness instantiating the ordering theorem: registering low, high, mid
still yields the bucket in priority order and invocation in that order. -/
theorem listener_order_invariant_witness :
    ([c5Low, c5High, c5Mid].foldl (fun s c => onEvent EventType.KEYDOWN c s)
        emptyBus).listeners EventType.KEYDOWN = [c5High, c5Mid, c5Low] ∧
    (processEvent 0 evKeydown
        ([c5Low, c5High, c5Mid].foldl (fun s c => onEvent EventType.KEYDOWN c s)
          emptyBus)).1 = false ∧
    invokedIds (processEvent 0 evKeydown
        ([c5Low, c5High, c5Mid].foldl (fun s c => onEvent EventType.KEYDOWN c s)
          emptyBus)).2.2 = ["p10", "p5", "p0"] :=
  listener_order_invariant.2.2.2.2.2 EventType.KEYDOWN c5High c5Mid c5Low
    [c5Low, c5High, c5Mid] 0 evKeydown (by decide) (by decide)
    ((List.Perm.swap c5High c5Low [c5Mid]).trans
      (List.Perm.cons c5High (List.Perm.swap c5Mid c5Low [])))
    rfl
    (by
      intro x hx
      rcases List.mem_cons.mp hx with h1 | hx
      · rw [h1]; decide
      rcases List.mem_cons.mp hx with h1 | hx
      · rw [h1]; decide
      rcases List.mem_cons.mp hx with h1 | hx
      · rw [h1]; decide
      · cases hx)

/-! Keyboard observer (KeyboardListener in src/unnamed/part_001): keydown
handling and combination lookup. -/

namespace KB

/-- The observable fields of a DOM KeyboardEvent that the keyboard
observer reads. -/
structure KeyboardEvent where
  key : String
  code : String
  ctrlKey : Bool
  altKey : Bool
  shiftKey : Bool
  metaKey : Bool
  repeatFlag : Bool
  location : Nat
deriving DecidableEq

/-- COMMON_KEYBINDINGS from the EventTypes module: an object whose KEYS
are action names (SAVE, COPY, ...) and whose VALUES are combination
strings. -/
def COMMON_KEYBINDINGS : List (String × String) :=
  [("SAVE", "Ctrl+S"), ("COPY", "Ctrl+C"), ("PASTE", "Ctrl+V"), ("CUT", "Ctrl+X"),
   ("UNDO", "Ctrl+Z"), ("REDO", "Ctrl+Y"), ("SELECT_ALL", "Ctrl+A"), ("FIND", "Ctrl+F"),
   ("REFRESH", "F5"), ("DEV_TOOLS", "F12")]

/-- JS property read `obj[key]` on a string-keyed object literal. -/
def jsObjectLookup (o : List (String × String)) (k : String) : Option String :=
  (o.find? (fun p => p.1 = k)).map (fun p => p.2)

/-- KeyboardListener.checkKeybinding: build the canonical combination
string (modifiers in the fixed Ctrl, Alt, Shift, Meta order, then the
upper-cased key, joined by "+") and read
`COMMON_KEYBINDINGS[combination]` — the combination is used as a KEY of
that object although the object's keys are action names. -/
def checkKeybinding (e : KeyboardEvent) : Option (String × String) :=
  let modifiers :=
    (if e.ctrlKey then ["Ctrl"] else []) ++ (if e.altKey then ["Alt"] else []) ++
      (if e.shiftKey then ["Shift"] else []) ++ (if e.metaKey then ["Meta"] else [])
  let key := e.key.toUpper
  let combination := String.intercalate "+" (modifiers ++ [key])
  match jsObjectLookup COMMON_KEYBINDINGS combination with
  | some action => some (combination, action)
  | none => none

/-- The event records the keydown handler can emit. -/
inductive KbRecord where
  | keydownRec (e : KeyboardEvent)
  | keybindingRec (combination action : String) (e : KeyboardEvent)
deriving DecidableEq

/-- The keydown handler installed by
KeyboardListener.setupKeyboardListeners: always emit the raw keydown
record; additionally emit a keybinding record when checkKeybinding
matches. -/
def keydownHandler (e : KeyboardEvent) : List KbRecord :=
  [KbRecord.keydownRec e] ++
    (match checkKeybinding e with
      | some (combo, act) => [KbRecord.keybindingRec combo act e]
      | none => [])

/-- The default binding table installed by KeyboardPlugin.init
(src/unnamed/part_006): keys are combinations, values are action names —
the direction the spec describes. -/
def keyboardPluginKeybindings : List (String × String) :=
  [("Ctrl+S", "save"), ("Ctrl+Z", "undo"), ("Ctrl+Y", "redo")]

/-- A key-down for "s" with ctrlKey set. -/
def ctrlS : KeyboardEvent :=
  { key := "s", code := "KeyS", ctrlKey := true, altKey := false, shiftKey := false,
    metaKey := false, repeatFlag := false, location := 0 }

/-- C3: the repository's binding tables bind the combination "Ctrl+S" to
the action "save", and "Ctrl+S" does occur among COMMON_KEYBINDINGS's
values, yet checkKeybinding looks the combination up among that object's
action-name keys, finds nothing, and the keydown handler emits only the
raw key-down record — no key-binding-matched record, refuting the claim
at this input. -/
theorem c3_ctrlS_emits_single_record :
    jsObjectLookup keyboardPluginKeybindings "Ctrl+S" = some "save" ∧
    (COMMON_KEYBINDINGS.map (fun p => p.2)).contains "Ctrl+S" = true ∧
    checkKeybinding ctrlS = none ∧
    keydownHandler ctrlS = [KbRecord.keydownRec ctrlS] := by
  exact ⟨rfl, rfl, rfl, rfl⟩

end KB

/-! Structural-change observer (DomObserver in
src/src/util/EventDomObserver.ts): matching, filtering, debounced
batching.  Selector evaluation against the live DOM
(`element.closest(selector) !== null`, which checks the element itself and
its ancestor chain) is abstracted as a boolean matcher parameter `m`. -/

namespace Dom

inductive DomMutationType where
  | CHILD_LIST | ATTRIBUTES | CHARACTER_DATA
deriving DecidableEq

/-- The element fields the observer reads (id/className are "" when the
attribute is absent, as in the DOM). -/
structure El where
  nodeName : String
  nodeType : Nat
  idAttr : String
  className : String
deriving DecidableEq

/-- A DOM node as seen in addedNodes (nodeType 1 is ELEMENT_NODE). -/
structure DomNode where
  nodeType : Nat
  asElement : El
deriving DecidableEq

/-- A raw MutationRecord: mtype is the raw string ("childList",
"attributes", "characterData"); removedNodes is kept as its length, the
only thing the observer reads of it. -/
structure MutationRecord where
  mtype : String
  target : El
  addedNodes : List DomNode
  removedNodes : Nat
  attributeName : Option String
  oldValue : Option String
deriving DecidableEq

structure DomSelectorConfig where
  selector : String
  pluginName : String
  mutationTypes : Option (List DomMutationType)
deriving DecidableEq

/-- DomObserver.getMutationType: unknown strings default to CHILD_LIST. -/
def getMutationType (s : String) : DomMutationType :=
  if s = "childList" then DomMutationType.CHILD_LIST
  else if s = "attributes" then DomMutationType.ATTRIBUTES
  else if s = "characterData" then DomMutationType.CHARACTER_DATA
  else DomMutationType.CHILD_LIST

/-- The `config.mutationTypes && !config.mutationTypes.includes(t)` guard:
no filter declared means every type passes; a declared filter must contain
the type (an empty declared filter passes nothing). -/
def typeAllowed (cfg : DomSelectorConfig) (mt : DomMutationType) : Bool :=
  match cfg.mutationTypes with
  | none => true
  | some ts => ts.contains mt

/-- DomObserver.isElementMatched: the selector configs whose type filter
admits this mutation type and whose selector matches the element or one of
its ancestors (`m` models that closest-based predicate; the cached and
uncached code paths evaluate the same predicate). -/
def isElementMatched (m : String → El → Bool) (sels : List DomSelectorConfig)
    (el : El) (mt : DomMutationType) : List DomSelectorConfig :=
  sels.filter (fun cfg => typeAllowed cfg mt && m cfg.selector el)

/-- One mutation is relevant when its target matches, or — for child-list
changes — some newly added element node matches. -/
def mutationRelevant (m : String → El → Bool) (sels : List DomSelectorConfig)
    (mu : MutationRecord) : Bool :=
  !(isElementMatched m sels mu.target (getMutationType mu.mtype)).isEmpty ||
    (mu.mtype = "childList" &&
      mu.addedNodes.any (fun n =>
        n.nodeType = 1 &&
          !(isElementMatched m sels n.asElement (getMutationType mu.mtype)).isEmpty))

/-- DomObserver.filterRelevantMutations: with zero registered selectors
everything passes (backward-compatible observe-everything mode). -/
def filterRelevantMutations (m : String → El → Bool)
    (sels : List DomSelectorConfig) (ms : List MutationRecord) :
    List MutationRecord :=
  if sels.isEmpty then ms else ms.filter (mutationRelevant m sels)

/-- The `x || undefined` JS idiom on an optional string field: null and
the empty string both become undefined. -/
def jsOrUndef : Option String → Option String
  | none => none
  | some s => if s = "" then none else some s

/-- The simplified change descriptor put into the emitted event. -/
structure MutationDescriptor where
  dtype : DomMutationType
  targetNodeName : String
  targetNodeType : Nat
  targetId : Option String
  targetClassName : Option String
  addedNodes : Nat
  removedNodes : Nat
  attributeName : Option String
  oldValue : Option String
deriving DecidableEq

/-- The per-mutation mapping inside DomObserver.processMutations. -/
def descriptorOf (mu : MutationRecord) : MutationDescriptor :=
  { dtype := getMutationType mu.mtype
    targetNodeName := mu.target.nodeName
    targetNodeType := mu.target.nodeType
    targetId := jsOrUndef (some mu.target.idAttr)
    targetClassName := jsOrUndef (some mu.target.className)
    addedNodes := mu.addedNodes.length
    removedNodes := mu.removedNodes
    attributeName := jsOrUndef mu.attributeName
    oldValue := jsOrUndef mu.oldValue }

/-- The data of one batched DOM_MUTATION event record. -/
structure DomEvent where
  mutations : List MutationDescriptor
  mutationCount : Nat
deriving DecidableEq

def mkDomEvent (ms : List MutationRecord) : DomEvent :=
  { mutations := ms.map descriptorOf, mutationCount := ms.length }

/-- DomObserver.processBatchedMutations: nothing on an empty buffer;
otherwise filter, and emit a single batched event only when the filtered
result is non-empty.  The result is the list of events emitted by this
firing (length at most one). -/
def processBatchedMutations (m : String → El → Bool)
    (sels : List DomSelectorConfig) (pending : List MutationRecord) :
    List DomEvent :=
  if pending.isEmpty then []
  else
    let rel := filterRelevantMutations m sels pending
    if rel.isEmpty then [] else [mkDomEvent rel]

/-- The debounce state: the pending buffer and whether the timer is
armed. -/
structure DomState where
  pendingMutations : List MutationRecord
  timerArmed : Bool

/-- The MutationObserver callback: append the raw batch to the buffer and
(re)arm the debounce timer (clearTimeout + setTimeout). -/
def domNotify (st : DomState) (ms : List MutationRecord) : DomState :=
  { pendingMutations := st.pendingMutations ++ ms, timerArmed := true }

/-- The timer callback: processBatchedMutations, then clear the buffer and
the timer handle — the buffer is cleared whether or not anything was
emitted. -/
def domTimerFire (m : String → El → Bool) (sels : List DomSelectorConfig)
    (st : DomState) : List DomEvent × DomState :=
  (processBatchedMutations m sels st.pendingMutations,
    { pendingMutations := [], timerArmed := false })

theorem foldl_domNotify_pending (st : DomState)
    (bursts : List (List MutationRecord)) :
    (bursts.foldl domNotify st).pendingMutations
      = st.pendingMutations ++ bursts.flatten := by
  induction bursts generalizing st with
  | nil => simp
  | cons b bs ih =>
      rw [List.foldl_cons, ih]
      simp [domNotify, List.append_assoc]

theorem foldl_domNotify_armed (st : DomState)
    (bursts : List (List MutationRecord)) (h : bursts ≠ []) :
    (bursts.foldl domNotify st).timerArmed = true := by
  induction bursts generalizing st with
  | nil => exact absurd rfl h
  | cons b bs ih =>
      rw [List.foldl_cons]
      cases hbs : bs with
      | nil => rfl
      | cons b2 bs2 =>
          rw [← hbs]
          exact ih (domNotify st b) (by rw [hbs]; exact List.cons_ne_nil b2 bs2)

/-- C7: raw notification batches arriving within one coalescing window are
only buffered (re-arming the timer); when the timer fires, at most one
batched event is emitted, its descriptors covering exactly the buffered
notifications that matched a live subscription (all of them in
zero-subscription passthrough mode), no event when the filtered result is
empty, and the buffer is empty after the firing in every case. -/
theorem debounce_coalescing (m : String → El → Bool)
    (sels : List DomSelectorConfig) (st0 : DomState)
    (bursts : List (List MutationRecord))
    (h0 : st0.pendingMutations = []) (hne : bursts ≠ []) :
    (bursts.foldl domNotify st0).pendingMutations = bursts.flatten ∧
    (bursts.foldl domNotify st0).timerArmed = true ∧
    (domTimerFire m sels (bursts.foldl domNotify st0)).1.length ≤ 1 ∧
    (sels = [] → bursts.flatten ≠ [] →
      (domTimerFire m sels (bursts.foldl domNotify st0)).1
        = [mkDomEvent bursts.flatten]) ∧
    (filterRelevantMutations m sels bursts.flatten = [] →
      (domTimerFire m sels (bursts.foldl domNotify st0)).1 = []) ∧
    (filterRelevantMutations m sels bursts.flatten ≠ [] →
      (domTimerFire m sels (bursts.foldl domNotify st0)).1
          = [mkDomEvent (filterRelevantMutations m sels bursts.flatten)] ∧
      (mkDomEvent (filterRelevantMutations m sels bursts.flatten)).mutations
          = (filterRelevantMutations m sels bursts.flatten).map descriptorOf ∧
      (mkDomEvent (filterRelevantMutations m sels bursts.flatten)).mutationCount
          = (filterRelevantMutations m sels bursts.flatten).length) ∧
    (domTimerFire m sels (bursts.foldl domNotify st0)).2.pendingMutations = [] := by
  have hpend : (bursts.foldl domNotify st0).pendingMutations = bursts.flatten := by
    rw [foldl_domNotify_pending, h0, List.nil_append]
  refine ⟨hpend, foldl_domNotify_armed st0 bursts hne, ?_, ?_, ?_, ?_, rfl⟩
  · show (processBatchedMutations m sels (bursts.foldl domNotify st0).pendingMutations).length ≤ 1
    rw [hpend]
    unfold processBatchedMutations
    by_cases hj : bursts.flatten.isEmpty
    · simp [hj]
    · simp only [hj, if_false, Bool.false_eq_true]
      by_cases hr : (filterRelevantMutations m sels bursts.flatten).isEmpty
      · simp [hr]
      · simp [hr]
  · intro hsels hj
    show processBatchedMutations m sels (bursts.foldl domNotify st0).pendingMutations = _
    rw [hpend]
    unfold processBatchedMutations
    rw [if_neg (by simp [List.isEmpty_iff, hj])]
    have hfull : filterRelevantMutations m sels bursts.flatten = bursts.flatten := by
      unfold filterRelevantMutations
      rw [if_pos (by simp [hsels])]
    rw [hfull, if_neg (by simp [List.isEmpty_iff, hj])]
  · intro hfilt
    show processBatchedMutations m sels (bursts.foldl domNotify st0).pendingMutations = _
    rw [hpend]
    unfold processBatchedMutations
    by_cases hj : bursts.flatten.isEmpty
    · simp [hj]
    · simp only [hj, if_false, Bool.false_eq_true]
      rw [if_pos (by simp [List.isEmpty_iff, hfilt])]
  · intro hfilt
    refine ⟨?_, rfl, rfl⟩
    show processBatchedMutations m sels (bursts.foldl domNotify st0).pendingMutations = _
    rw [hpend]
    unfold processBatchedMutations
    have hj : bursts.flatten.isEmpty = false := by
      cases hjoin : bursts.flatten with
      | nil =>
          rw [hjoin] at hfilt
          exact absurd (by unfold filterRelevantMutations; cases sels <;> simp) hfilt
      | cons a as => rfl
    rw [if_neg (by simp [hj]), if_neg (by simp [List.isEmpty_iff, hfilt])]

/-- A concrete matcher: the selector matches elements whose className
equals it (standing in for closest-based evaluation). -/
def mW : String → El → Bool := fun sel el => el.className = sel

def selGallery : DomSelectorConfig :=
  { selector := "gallery", pluginName := "p1", mutationTypes := none }

def elGallery : El :=
  { nodeName := "DIV", nodeType := 1, idAttr := "", className := "gallery" }

def elOther : El :=
  { nodeName := "SPAN", nodeType := 1, idAttr := "", className := "other" }

def muMatch : MutationRecord :=
  { mtype := "childList", target := elGallery, addedNodes := [], removedNodes := 0,
    attributeName := none, oldValue := none }

def muMiss : MutationRecord :=
  { mtype := "attributes", target := elOther, addedNodes := [], removedNodes := 1,
    attributeName := some "class", oldValue := some "x" }

def domSt0 : DomState := { pendingMutations := [], timerArmed := false }

def burstsW : List (List MutationRecord) := [[muMatch], [muMiss]]

/-- Witness instantiating the debounce-coalescing theorem on a two-burst
window with one matching and one non-matching notification. -/
theorem debounce_coalescing_witness :
    (burstsW.foldl domNotify domSt0).pendingMutations = burstsW.flatten ∧
    (burstsW.foldl domNotify domSt0).timerArmed = true ∧
    (domTimerFire mW [selGallery] (burstsW.foldl domNotify domSt0)).1.length ≤ 1 ∧
    (([selGallery] : List DomSelectorConfig) = [] → burstsW.flatten ≠ [] →
      (domTimerFire mW [selGallery] (burstsW.foldl domNotify domSt0)).1
        = [mkDomEvent burstsW.flatten]) ∧
    (filterRelevantMutations mW [selGallery] burstsW.flatten = [] →
      (domTimerFire mW [selGallery] (burstsW.foldl domNotify domSt0)).1 = []) ∧
    (filterRelevantMutations mW [selGallery] burstsW.flatten ≠ [] →
      (domTimerFire mW [selGallery] (burstsW.foldl domNotify domSt0)).1
          = [mkDomEvent (filterRelevantMutations mW [selGallery] burstsW.flatten)] ∧
      (mkDomEvent (filterRelevantMutations mW [selGallery] burstsW.flatten)).mutations
          = (filterRelevantMutations mW [selGallery] burstsW.flatten).map descriptorOf ∧
      (mkDomEvent (filterRelevantMutations mW [selGallery] burstsW.flatten)).mutationCount
          = (filterRelevantMutations mW [selGallery] burstsW.flatten).length) ∧
    (domTimerFire mW [selGallery] (burstsW.foldl domNotify domSt0)).2.pendingMutations
      = [] :=
  debounce_coalescing mW [selGallery] domSt0 burstsW rfl (List.cons_ne_nil _ _)

end Dom

/-! Network observer (NetworkListener in
src/src/util/EventNetworkListener.ts): the fetch wrapper and its
stop-time restoration.  JSON values and JSON.parse are abstracted as a
type `J` with a partial parser (a parse failure, swallowed and logged in
the source, is `none`). -/

namespace Net

/-- The observable content of a Response: status, statusText, headers and
body bytes. -/
structure HttpResponse where
  status : Nat
  statusText : String
  headers : List (String × String)
  body : String
deriving DecidableEq

/-- Response.clone(): same status, statusText, headers and body bytes,
with an unconsumed body stream. -/
def cloneResponse (r : HttpResponse) : HttpResponse :=
  { status := r.status, statusText := r.statusText, headers := r.headers,
    body := r.body }

theorem cloneResponse_eq (r : HttpResponse) : cloneResponse r = r := rfl

/-- One fetch invocation: the url, the optional init fields the wrapper
reads, and the request body. -/
structure FetchCall where
  url : String
  method : Option String
  headers : List (String × String)
  body : Option String
deriving DecidableEq

/-- Headers.get (header names are case-insensitive). -/
def headersGet (hs : List (String × String)) (k : String) : Option String :=
  (hs.find? (fun p => p.1.toLower = k.toLower)).map (fun p => p.2)

/-- String.prototype.includes for a non-empty needle. -/
def strIncludes (s sub : String) : Bool := (s.splitOn sub).length ≥ 2

/-- NetworkListener.isJsonString: empty strings are falsy; otherwise the
trimmed text must be brace- or bracket-delimited. -/
def isJsonString (s : String) : Bool :=
  if s = "" then false
  else
    let t := s.trim
    (t.startsWith "\x7b" && t.endsWith "\x7d") || (t.startsWith "[" && t.endsWith "]")

/-- The `init?.method || 'GET'` idiom (empty string is falsy too). -/
def jsOrDefault (s : Option String) (d : String) : String :=
  match s with
  | none => d
  | some v => if v = "" then d else v

/-- The NetworkResponseData record carried by a response-received event. -/
structure NetworkResponseData (J : Type) where
  url : String
  method : String
  status : Nat
  statusText : String
  headers : List (String × String)
  json : Option J
  text : Option String
  responseTime : Int
  requestId : String
  jsonContent : Option J

/-- The network events the wrapper emits. -/
inductive NetEvent (J : Type) where
  | requestIssued (url method requestId : String) (body : Option String)
  | responseReceived (d : NetworkResponseData J)

/-- NetworkListener.processResponse: read the body text, best-effort JSON
decode when the content-type says JSON or the text looks like JSON, and
assemble the response-received data. -/
def processResponse {J : Type} (parseJson : String → Option J)
    (resp : HttpResponse) (url method requestId : String)
    (responseTime : Int) : NetworkResponseData J :=
  let contentType := (headersGet resp.headers "content-type").getD ""
  let text := resp.body
  let j := if strIncludes contentType "application/json" || isJsonString text then
    parseJson text else none
  { url := url, method := method, status := resp.status,
    statusText := resp.statusText, headers := resp.headers, json := j,
    text := some text, responseTime := responseTime, requestId := requestId,
    jsonContent := j }

/-- The wrapped window.fetch installed by NetworkListener.interceptFetch,
for one call: requestId is the id generated for the call, startTime and
endTime the two Date.now readings around the original fetch.  Emits the
request-issued event, runs the original, and on success emits the
response-received event and hands the caller the clone; a rejection is
logged and re-thrown unchanged. -/
def wrappedFetch {J : Type} (orig : FetchCall → Except String HttpResponse)
    (parseJson : String → Option J) (requestId : String)
    (startTime endTime : Nat) (call : FetchCall) :
    Except String HttpResponse × List (NetEvent J) :=
  let url := call.url
  let method := jsOrDefault call.method "GET"
  let reqEv := NetEvent.requestIssued url method requestId call.body
  match orig call with
  | Except.error err => (Except.error err, [reqEv])
  | Except.ok resp =>
      let responseTime : Int := (endTime : Int) - (startTime : Int)
      (Except.ok (cloneResponse resp),
        [reqEv, NetEvent.responseReceived
          (processResponse parseJson resp url method requestId responseTime)])

/-- The observer state relevant to the fetch slot: the active flag, the
currently installed window.fetch, and the saved original. -/
structure NetState (J : Type) where
  isActive : Bool
  windowFetch : FetchCall → Except String HttpResponse × List (NetEvent J)
  originalFetch : FetchCall → Except String HttpResponse × List (NetEvent J)

/-- The unwrapped host primitive, which emits no events. -/
def liftFetch {J : Type} (orig : FetchCall → Except String HttpResponse) :
    FetchCall → Except String HttpResponse × List (NetEvent J) :=
  fun c => (orig c, [])

/-- NetworkListener.stop: restore window.fetch from the saved original and
drop the active flag (no-op when not active). -/
def netStop {J : Type} (st : NetState J) : NetState J :=
  if st.isActive then { st with windowFetch := st.originalFetch, isActive := false }
  else st

/-- C9: the wrapped fetch delivers to its caller exactly what the
unwrapped primitive delivers — same success value (status, statusText,
headers, body bytes, via the clone) and rejections propagated unchanged —
only adding a request-issued event before and, on success, a
response-received event after, with best-effort JSON decode and a
non-negative elapsed time; and stop restores the saved original, which
emits nothing. -/
theorem fetch_wrapper_refinement {J : Type}
    (orig : FetchCall → Except String HttpResponse)
    (parseJson : String → Option J) (requestId : String)
    (startTime endTime : Nat) (call : FetchCall) (st : NetState J)
    (hclock : startTime ≤ endTime) (hact : st.isActive = true)
    (horig : st.originalFetch = liftFetch orig) :
    (wrappedFetch orig parseJson requestId startTime endTime call).1 = orig call ∧
    (∀ resp, orig call = Except.ok resp →
      (wrappedFetch orig parseJson requestId startTime endTime call).2
        = [NetEvent.requestIssued call.url (jsOrDefault call.method "GET")
            requestId call.body,
           NetEvent.responseReceived (processResponse parseJson resp call.url
             (jsOrDefault call.method "GET") requestId
             ((endTime : Int) - (startTime : Int)))] ∧
      (processResponse parseJson resp call.url (jsOrDefault call.method "GET")
          requestId ((endTime : Int) - (startTime : Int))).responseTime ≥ 0 ∧
      (processResponse parseJson resp call.url (jsOrDefault call.method "GET")
          requestId ((endTime : Int) - (startTime : Int))).status = resp.status ∧
      (processResponse parseJson resp call.url (jsOrDefault call.method "GET")
          requestId ((endTime : Int) - (startTime : Int))).text = some resp.body) ∧
    (∀ err, orig call = Except.error err →
      (wrappedFetch orig parseJson requestId startTime endTime call).1
          = Except.error err ∧
      (wrappedFetch orig parseJson requestId startTime endTime call).2
          = [NetEvent.requestIssued call.url (jsOrDefault call.method "GET")
              requestId call.body]) ∧
    (netStop st).isActive = false ∧
    (netStop st).windowFetch = liftFetch orig ∧
    (∀ c, ((netStop st).windowFetch c).1 = orig c ∧
      ((netStop st).windowFetch c).2 = []) := by
  refine ⟨?_, ?_, ?_, ?_, ?_, ?_⟩
  · cases ho : orig call with
    | error err => simp [wrappedFetch, ho]
    | ok resp => simp [wrappedFetch, ho, cloneResponse_eq]
  · intro resp ho
    refine ⟨by simp [wrappedFetch, ho], ?_, rfl, rfl⟩
    show (endTime : Int) - (startTime : Int) ≥ 0
    omega
  · intro err ho
    exact ⟨by simp [wrappedFetch, ho], by simp [wrappedFetch, ho]⟩
  · simp [netStop, hact]
  · simp [netStop, hact, horig]
  · intro c
    simp [netStop, hact, horig, liftFetch]

def respW : HttpResponse :=
  { status := 200, statusText := "OK",
    headers := [("content-type", "application/json")], body := "\x7b\x7d" }

def origW : FetchCall → Except String HttpResponse := fun _ => Except.ok respW

def parseW : String → Option String := fun s => some s

def callW : FetchCall :=
  { url := "https://api.test/data", method := some "POST", headers := [],
    body := some "\x7b\x7d" }

def netStW : NetState String :=
  { isActive := true,
    windowFetch := wrappedFetch origW parseW "req_1" 100 116,
    originalFetch := liftFetch origW }

/-- Witness instantiating the fetch-wrapper refinement theorem on a
started observer, a JSON 200 response, and a 16-unit elapsed time. -/
theorem fetch_wrapper_refinement_witness :
    (wrappedFetch origW parseW "req_1" 100 116 callW).1 = origW callW ∧
    (∀ resp, origW callW = Except.ok resp →
      (wrappedFetch origW parseW "req_1" 100 116 callW).2
        = [NetEvent.requestIssued callW.url (jsOrDefault callW.method "GET")
            "req_1" callW.body,
           NetEvent.responseReceived (processResponse parseW resp callW.url
             (jsOrDefault callW.method "GET") "req_1" ((116 : Int) - (100 : Int)))] ∧
      (processResponse parseW resp callW.url (jsOrDefault callW.method "GET")
          "req_1" ((116 : Int) - (100 : Int))).responseTime ≥ 0 ∧
      (processResponse parseW resp callW.url (jsOrDefault callW.method "GET")
          "req_1" ((116 : Int) - (100 : Int))).status = resp.status ∧
      (processResponse parseW resp callW.url (jsOrDefault callW.method "GET")
          "req_1" ((116 : Int) - (100 : Int))).text = some resp.body) ∧
    (∀ err, origW callW = Except.error err →
      (wrappedFetch origW parseW "req_1" 100 116 callW).1 = Except.error err ∧
      (wrappedFetch origW parseW "req_1" 100 116 callW).2
        = [NetEvent.requestIssued callW.url (jsOrDefault callW.method "GET")
            "req_1" callW.body]) ∧
    (netStop netStW).isActive = false ∧
    (netStop netStW).windowFetch = liftFetch origW ∧
    (∀ c, ((netStop netStW).windowFetch c).1 = origW c ∧
      ((netStop netStW).windowFetch c).2 = []) :=
  fetch_wrapper_refinement origW parseW "req_1" 100 116 callW netStW
    (by decide) rfl rfl

end Net

end PF
